import Mathlib

/-!
Verification development for the zoom-webhook recording processor.

The definitions below are a shallow embedding of the metadata-fusion
pipeline of `src/recording-processor.js` (class `RecordingProcessor`) and
of the folder-name extractor of `src/local-recording-analyzer.js`
(class `LocalRecordingAnalyzer`).  Strings are modelled as `List Char`,
JavaScript string regular-expression matching is modelled by a small
backtracking matcher (`RE`, `runRE`, `searchRE`) with JavaScript's
leftmost-match, greedy, prioritized-alternative semantics, and the
floating-point confidence literals of the source are modelled as exact
rationals.
-/

namespace ZW

/-- Strings are modelled as lists of characters. -/
abbrev Str := List Char

/-- Coerce a Lean string literal to the model's string type. -/
def str (s : String) : Str := s.data

/-- JavaScript `toLowerCase` restricted to ASCII (all inputs of interest are ASCII). -/
def lowerChar (c : Char) : Char :=
  if 'A' ≤ c ∧ c ≤ 'Z' then Char.ofNat (c.toNat + 32) else c

/-- JavaScript `toUpperCase` restricted to ASCII. -/
def upperChar (c : Char) : Char :=
  if 'a' ≤ c ∧ c ≤ 'z' then Char.ofNat (c.toNat - 32) else c

def lower (s : Str) : Str := s.map lowerChar

/-- Character class `\d`. -/
def isDigitC (c : Char) : Bool := decide ('0' ≤ c ∧ c ≤ '9')

/-- Character class `[a-z]` under the `i` flag, i.e. any ASCII letter. -/
def isAlphaC (c : Char) : Bool :=
  decide (('a' ≤ c ∧ c ≤ 'z') ∨ ('A' ≤ c ∧ c ≤ 'Z'))

/-- Lower-case ASCII letter (class `[a-z]` without the `i` flag). -/
def isLowerAlphaC (c : Char) : Bool := decide ('a' ≤ c ∧ c ≤ 'z')

/-- JavaScript `\s` restricted to its ASCII members. -/
def isSpaceC (c : Char) : Bool :=
  decide (c = ' ' ∨ c = '\t' ∨ c = '\n' ∨ c = '\r' ∨ c.toNat = 11 ∨ c.toNat = 12)

/-- Character class `[_\s]`. -/
def isWsU (c : Char) : Bool := decide (c = '_') || isSpaceC c

/-- JavaScript word character (`\w`), used for `\b` word boundaries. -/
def isWordC (c : Char) : Bool := isAlphaC c || isDigitC c || decide (c = '_')

/-- Alphanumeric ASCII character. -/
def isAlnumC (c : Char) : Bool := isAlphaC c || isDigitC c

/-- JavaScript `String.prototype.includes` (substring test). -/
def containsSub : Str → Str → Bool
  | _, [] => true
  | [], _ :: _ => false
  | c :: t, n => List.isPrefixOf n (c :: t) || containsSub t n

/-- `^\d+$`: nonempty, all digits. -/
def allDigits (s : Str) : Bool := decide (s ≠ []) && s.all isDigitC

/-- JavaScript `s.split(sep)` for a single-character separator: keeps empty
    fields (`"a__b".split('_') = ["a","","b"]`). -/
def splitChar (sep : Char) : Str → List Str
  | [] => [[]]
  | c :: t =>
    match splitChar sep t with
    | [] => if c = sep then [[], [c]] else [[c]]
    | h :: r => if c = sep then [] :: h :: r else (c :: h) :: r

theorem dropWhile_length_le (f : Char → Bool) (s : Str) :
    (s.dropWhile f).length ≤ s.length := by
  induction s with
  | nil => simp
  | cons c t ih =>
    by_cases h : f c
    · simp [List.dropWhile, h]; omega
    · simp [List.dropWhile, h]

/-- Fuel-indexed worker for `splitClassRuns` (fuel bounds the input length). -/
def splitClassRunsF (f : Char → Bool) : Nat → Str → List Str
  | _, [] => [[]]
  | 0, _ :: _ => [[]]
  | fuel + 1, c :: t =>
    if f c then [] :: splitClassRunsF f fuel (t.dropWhile f)
    else
      match splitClassRunsF f fuel t with
      | [] => [[c]]
      | h :: r => (c :: h) :: r

/-- JavaScript `s.split(/[cls]+/)`: splits on maximal nonempty runs of the
    class, keeping empty fields at the ends (`"_a".split(/[_]+/) = ["","a"]`). -/
def splitClassRuns (f : Char → Bool) (s : Str) : List Str :=
  splitClassRunsF f s.length s

/-- JavaScript `String.prototype.trim` (ASCII whitespace). -/
def trimS (s : Str) : Str :=
  ((s.dropWhile isSpaceC).reverse.dropWhile isSpaceC).reverse

/-- Case-insensitive literal match at the head of the input; returns the rest. -/
def matchLitCI : Str → Str → Option Str
  | [], input => some input
  | _ :: _, [] => none
  | p :: ps, c :: cs =>
    if lowerChar p = lowerChar c then matchLitCI ps cs else none

/-- Regular expressions, restricted to the shapes used in the source. -/
inductive RE where
  /-- case-insensitive literal -/
  | lit (s : Str)
  /-- a single character of a class -/
  | cls (f : Char → Bool)
  /-- greedy `f*` (`min1 = false`) or `f+` (`min1 = true`) over a class -/
  | rep (f : Char → Bool) (min1 : Bool)
  /-- `r?` (greedy: with-body first) -/
  | opt (r : RE)
  | seq (a b : RE)
  /-- ordered alternation `a|b` -/
  | alt (a b : RE)
  /-- capturing group -/
  | grp (r : RE)
  /-- greedy `(?: r )*` for a composite body that always consumes input -/
  | starComp (r : RE)

/-- Outcomes of a greedy class repetition, longest first, as remaining inputs. -/
def repOutcomes (f : Char → Bool) (min1 : Bool) (input : Str) :
    List (Str × List Str) :=
  let run := input.takeWhile f
  let rest := input.dropWhile f
  let lo := if min1 then 1 else 0
  (List.range (run.length + 1 - lo)).map
    (fun i => (run.drop (run.length - i) ++ rest, ([] : List Str)))

/-- One unfolding level of the matcher: all ways a regex can match a prefix of
    the input, as `(remaining input, captured groups)`, in JavaScript
    backtracking priority order (the first outcome is the one JavaScript
    commits to at this start position).  `step` performs the self-recursive
    call of a composite star. -/
def runRE1 (step : RE → Str → List (Str × List Str)) : RE → Str → List (Str × List Str)
  | .lit s, input =>
    match matchLitCI s input with
    | some rest => [(rest, [])]
    | none => []
  | .cls f, input =>
    match input with
    | [] => []
    | c :: t => if f c then [(t, [])] else []
  | .rep f min1, input => repOutcomes f min1 input
  | .opt r, input => runRE1 step r input ++ [(input, [])]
  | .seq a b, input =>
    (runRE1 step a input).flatMap
      (fun p => (runRE1 step b p.1).map (fun q => (q.1, p.2 ++ q.2)))
  | .alt a b, input => runRE1 step a input ++ runRE1 step b input
  | .grp r, input =>
    (runRE1 step r input).map
      (fun p => (p.1, p.2 ++ [input.take (input.length - p.1.length)]))
  | .starComp r, input =>
    (((runRE1 step r input).filter (fun p => p.1.length < input.length)).flatMap
      (fun p => (step (.starComp r) p.1).map
        (fun q => (q.1, p.2 ++ q.2)))) ++ [(input, [])]

/-- The matcher, with fuel consumed only at composite-star self-recursion; a
    star body always consumes input, so `input.length + 1` fuel is exact. -/
def runRE : Nat → RE → Str → List (Str × List Str)
  | 0, _, input => [(input, [])]
  | fuel + 1, re, input => runRE1 (runRE fuel) re input

/-- Try to match `re` starting exactly at the head of `input`; returns the
    captures of the highest-priority match. -/
def tryAt (re : RE) (input : Str) : Option (List Str) :=
  (runRE (input.length + 1) re input).head?.map Prod.snd

/-- JavaScript `input.match(re)`: leftmost match position wins, and at that
    position the backtracking-priority-first outcome wins.  Returns the list
    of captured groups. -/
def searchRE (re : RE) : Str → Option (List Str)
  | [] => tryAt re []
  | c :: t =>
    match tryAt re (c :: t) with
    | some caps => some caps
    | none => searchRE re t

/-- First capture group (`match[1]`) of the leftmost match. -/
def search1 (re : RE) (s : Str) : Option Str := (searchRE re s).bind List.head?

/-- Leftmost match over an ordered pattern list: for each pattern in order,
    take its leftmost match's first capture; first pattern that matches wins. -/
def firstPatternCapture (pats : List RE) (s : Str) : Option Str :=
  pats.findSome? (fun re => search1 re s)

/-- JavaScript truthiness for an optional string (`null`/`undefined`/`""` are falsy). -/
def optTruthy : Option Str → Bool
  | some s => decide (s ≠ [])
  | none => false

/-- JavaScript `x || y` over optional strings (empty strings are falsy). -/
def orTruthy (a : Option Str) (b : Str) : Str :=
  match a with
  | some s => if s = [] then b else s
  | none => b

/-! ## Word-boundary matcher for the game-plan patterns

All four game-plan patterns have the shape `\b A [_\s]* B \b` (or `\b A \b`
when `B` is empty and no separator is allowed), with `A` starting and the
whole match ending in a letter. -/

/-- Match `\b A sep? B \b` exactly at this position; `prevWord` tells whether the
    preceding character is a word character. -/
def boundedMatchAt (a b : Str) (sep : Bool) (prevWord : Bool) (input : Str) : Bool :=
  !prevWord &&
    match matchLitCI a input with
    | none => false
    | some r1 =>
      let r2 := if sep then r1.dropWhile isWsU else r1
      match matchLitCI b r2 with
      | none => false
      | some r3 =>
        match r3 with
        | [] => true
        | c :: _ => !isWordC c

/-- Scan for `\b A sep? B \b` anywhere in the input (JavaScript `re.test`). -/
def scanBounded (a b : Str) (sep : Bool) : Bool → Str → Bool
  | _, [] => false
  | prevWord, c :: t =>
    boundedMatchAt a b sep prevWord (c :: t) || scanBounded a b sep (isWordC c) t

end ZW

namespace ZW.RP
/-! ## `RecordingProcessor` (src/recording-processor.js) -/

open ZW

/-- The `knownCoachNames` set (constructor). -/
def knownCoachNames : List Str :=
  [str "noor", str "jenny", str "aditi", str "marissa", str "rishi", str "erin",
   str "janice", str "summer", str "jamie", str "alice", str "alan", str "andrew",
   str "juli"]

/-- `capitalizeWord(word)`: first character upper-cased, the rest lower-cased. -/
def capitalizeWord (word : Str) : Str :=
  match word with
  | [] => []
  | c :: t => upperChar c :: lower t

/-- `isCoachEmail(email)`. -/
def isCoachEmail (email : Str) : Bool :=
  containsSub (lower email) (str "@ivymentors.co") ||
  containsSub (lower email) (str "@stanford.edu")

/-- `isSirajRecording(topic)`. -/
def isSirajRecording (topic : Str) : Bool :=
  containsSub (lower topic) (str "siraj") &&
  !containsSub (lower topic) (str "sameeha_siraj")

/-- `isCompanyName(name)`. -/
def isCompanyName (name : Str) : Bool :=
  if name = [] then false
  else
    let companyIndicators : List Str :=
      [str "ivy mentor", str "ivymentor", str "ivy mentors", str "ivymentors",
       str "company", str "corporation", str "corp", str "inc", str "llc", str "ltd",
       str "organization", str "org", str "institute", str "academy",
       str "services", str "consulting", str "partners", str "group"]
    let nameLower := lower name
    companyIndicators.any (fun ind => containsSub nameLower ind) ||
      decide (nameLower = str "ivy mentor") || decide (nameLower = str "ivy mentors")

/-- `isLikelyCoach(username, email)`; the first name is
    `username.toLowerCase().split(/[.\s_-]/)[0]`. -/
def isLikelyCoach (username email : Str) : Bool :=
  if email ≠ [] && isCoachEmail email then true
  else if username ≠ [] then
    let firstName :=
      (lower username).takeWhile
        (fun c => !(c = '.' || isSpaceC c || c = '_' || c = '-'))
    knownCoachNames.contains firstName
  else false

/-- `hasGamePlanIndicator(topic)`: the four `\b…\b` game-plan patterns. -/
def hasGamePlanIndicator (topic : Str) : Bool :=
  scanBounded (str "game") (str "plan") true false topic ||
  scanBounded (str "gameplan") [] false false topic ||
  scanBounded (str "strategy") (str "session") true false topic ||
  scanBounded (str "planning") (str "meeting") true false topic

/-! ### The regular-expression pattern lists -/

/-- `/coach[_\s]+([a-z]+)/i` -/
def coachP1 : RE :=
  .seq (.lit (str "coach")) (.seq (.rep isWsU true) (.grp (.rep isAlphaC true)))

/-- `/new[_\s]+coach[_\s]+([a-z]+)/i` -/
def coachP2 : RE :=
  .seq (.lit (str "new")) (.seq (.rep isWsU true) (.seq (.lit (str "coach"))
    (.seq (.rep isWsU true) (.grp (.rep isAlphaC true)))))

/-- `/coach[_\s]*[:]\s*([a-z]+)/i` -/
def coachP3 : RE :=
  .seq (.lit (str "coach")) (.seq (.rep isWsU false) (.seq (.lit (str ":"))
    (.seq (.rep isSpaceC false) (.grp (.rep isAlphaC true)))))

/-- `/w[_\s]*(?:ith)?[_\s]*([a-z]+)/i` -/
def coachP4 : RE :=
  .seq (.lit (str "w")) (.seq (.rep isWsU false) (.seq (.opt (.lit (str "ith")))
    (.seq (.rep isWsU false) (.grp (.rep isAlphaC true)))))

/-- `/coach[_\s]*([a-z]+)(?:[_\s]+(?:week|wk|session))?/i` -/
def coachP5 : RE :=
  .seq (.lit (str "coach")) (.seq (.rep isWsU false) (.seq (.grp (.rep isAlphaC true))
    (.opt (.seq (.rep isWsU true)
      (.alt (.lit (str "week")) (.alt (.lit (str "wk")) (.lit (str "session"))))))))

/-- `/([a-z]+)[_\s]*(?:coaching|session|meeting)/i` -/
def coachP6 : RE :=
  .seq (.grp (.rep isAlphaC true)) (.seq (.rep isWsU false)
    (.alt (.lit (str "coaching")) (.alt (.lit (str "session")) (.lit (str "meeting")))))

/-- `/with[_\s]+coach[_\s]+([a-z]+)/i` -/
def coachP7 : RE :=
  .seq (.lit (str "with")) (.seq (.rep isWsU true) (.seq (.lit (str "coach"))
    (.seq (.rep isWsU true) (.grp (.rep isAlphaC true)))))

/-- `/([a-z]+)[_\s]*-[_\s]*coach/i` -/
def coachP8 : RE :=
  .seq (.grp (.rep isAlphaC true)) (.seq (.rep isWsU false) (.seq (.lit (str "-"))
    (.seq (.rep isWsU false) (.lit (str "coach")))))

/-- The ordered `coachPatterns` list. -/
def coachPatterns : List RE :=
  [coachP1, coachP2, coachP3, coachP4, coachP5, coachP6, coachP7, coachP8]

/-- `/week[_\s]+(\d+)/i` -/
def weekP1 : RE :=
  .seq (.lit (str "week")) (.seq (.rep isWsU true) (.grp (.rep isDigitC true)))

/-- `/wk[_\s]+(\d+)/i` -/
def weekP2 : RE :=
  .seq (.lit (str "wk")) (.seq (.rep isWsU true) (.grp (.rep isDigitC true)))

/-- `/week[_\s]*#[_\s]*(\d+)/i` -/
def weekP3 : RE :=
  .seq (.lit (str "week")) (.seq (.rep isWsU false) (.seq (.lit (str "#"))
    (.seq (.rep isWsU false) (.grp (.rep isDigitC true)))))

/-- `/wk[_\s]*#[_\s]*(\d+)/i` -/
def weekP4 : RE :=
  .seq (.lit (str "wk")) (.seq (.rep isWsU false) (.seq (.lit (str "#"))
    (.seq (.rep isWsU false) (.grp (.rep isDigitC true)))))

/-- `/w(?:ee)?k\s*[#-]?\s*(\d+)/i` -/
def weekP5 : RE :=
  .seq (.lit (str "w")) (.seq (.opt (.lit (str "ee"))) (.seq (.lit (str "k"))
    (.seq (.rep isSpaceC false) (.seq (.opt (.cls (fun c => c = '#' || c = '-')))
      (.seq (.rep isSpaceC false) (.grp (.rep isDigitC true)))))))

/-- `/session\s*[#-]?\s*(\d+)/i` -/
def weekP6 : RE :=
  .seq (.lit (str "session")) (.seq (.rep isSpaceC false)
    (.seq (.opt (.cls (fun c => c = '#' || c = '-')))
      (.seq (.rep isSpaceC false) (.grp (.rep isDigitC true)))))

/-- `/meeting\s*[#-]?\s*(\d+)/i` -/
def weekP7 : RE :=
  .seq (.lit (str "meeting")) (.seq (.rep isSpaceC false)
    (.seq (.opt (.cls (fun c => c = '#' || c = '-')))
      (.seq (.rep isSpaceC false) (.grp (.rep isDigitC true)))))

/-- `/(\d+)(?:st|nd|rd|th)?\s*(?:week|session|meeting)/i` -/
def weekP8 : RE :=
  .seq (.grp (.rep isDigitC true))
    (.seq (.opt (.alt (.lit (str "st")) (.alt (.lit (str "nd"))
      (.alt (.lit (str "rd")) (.lit (str "th"))))))
      (.seq (.rep isSpaceC false)
        (.alt (.lit (str "week")) (.alt (.lit (str "session")) (.lit (str "meeting"))))))

/-- `/wk(\d+)/i` -/
def weekP9 : RE := .seq (.lit (str "wk")) (.grp (.rep isDigitC true))

/-- `/w(\d+)/i` -/
def weekP10 : RE := .seq (.lit (str "w")) (.grp (.rep isDigitC true))

/-- The ordered `weekPatterns` list of `extractWeekNumber`. -/
def weekPatterns : List RE :=
  [weekP1, weekP2, weekP3, weekP4, weekP5, weekP6, weekP7, weekP8, weekP9, weekP10]

/-- `extractWeekNumber(topic)`. -/
def extractWeekNumber (topic : Str) : Option Str :=
  firstPatternCapture weekPatterns topic

/-- The `enhancedWeekPatterns` of `extractMetadataFromAllSources` step 5. -/
def enhancedWeekPatterns : List RE :=
  [weekP5, weekP6, weekP7, weekP8, weekP9, weekP10]

/-- A webhook `participants` entry (only the email field is consulted). -/
structure RPart where
  email : Option Str
deriving DecidableEq

/-- `extractCoachFromRecordingInfo(topic, hostEmail, participantInfo)`. -/
def extractCoachFromRecordingInfo (topic : Str) (hostEmail : Option Str)
    (participantInfo : Option (List RPart)) : Option Str :=
  let topicLower := lower topic
  if isSirajRecording topic then some (str "Siraj")
  else
    let parts := splitChar '_' topic
    if parts.length ≥ 2 && knownCoachNames.contains (lower (parts.headD [])) then
      some (capitalizeWord (parts.headD []))
    else
      match coachPatterns.findSome? (fun pat =>
          match search1 pat topicLower with
          | some cap =>
            if knownCoachNames.contains (lower cap) then some (capitalizeWord cap)
            else none
          | none => none) with
      | some c => some c
      | none =>
        match parts.find? (fun p => knownCoachNames.contains (lower p)) with
        | some p => some (capitalizeWord p)
        | none =>
          let words := splitClassRuns (fun c => c = '_' || isSpaceC c || c = '-') topicLower
          match words.findSome? (fun w =>
              let cleanWord := w.filter isLowerAlphaC
              if knownCoachNames.contains cleanWord then some (capitalizeWord cleanWord)
              else none) with
          | some c => some c
          | none =>
            let hostRes : Option Str :=
              match hostEmail with
              | some he =>
                if he ≠ [] && isCoachEmail he then
                  let emailName := (splitChar '@' he).headD []
                  let firstName := (splitChar '.' emailName).headD []
                  if knownCoachNames.contains (lower firstName) then
                    some (capitalizeWord firstName)
                  else none
                else none
              | none => none
            match hostRes with
            | some c => some c
            | none =>
              match participantInfo with
              | some ps =>
                ps.findSome? (fun p =>
                  match p.email with
                  | some e =>
                    if e ≠ [] && isCoachEmail e then
                      let emailName := (splitChar '@' e).headD []
                      let firstName := (splitChar '.' emailName).headD []
                      if knownCoachNames.contains (lower firstName) then
                        some (capitalizeWord firstName)
                      else none
                    else none
                  | none => none)
              | none => none

/-- `([a-z]+(?:[_\s]+[a-z]+)?)` -/
def nameGrp : RE :=
  .grp (.seq (.rep isAlphaC true) (.opt (.seq (.rep isWsU true) (.rep isAlphaC true))))

/-- `([a-z]+(?:_[a-z]+)*)` -/
def underNameGrp : RE :=
  .grp (.seq (.rep isAlphaC true) (.starComp (.seq (.lit (str "_")) (.rep isAlphaC true))))

/-- `/____([a-z]+)___/i` -/
def studentP1 : RE :=
  .seq (.lit (str "____")) (.seq (.grp (.rep isAlphaC true)) (.lit (str "___")))

/-- `/___([a-z]+(?:_[a-z]+)*)___/i` -/
def studentP2 : RE :=
  .seq (.lit (str "___")) (.seq underNameGrp (.lit (str "___")))

/-- `/__([a-z]+(?:_[a-z]+)*)__/i` -/
def studentP3 : RE :=
  .seq (.lit (str "__")) (.seq underNameGrp (.lit (str "__")))

/-- `/student[_\s]+([a-z]+(?:_[a-z]+)*)/i` -/
def studentP4 : RE :=
  .seq (.lit (str "student")) (.seq (.rep isWsU true) underNameGrp)

/-- `/student[_\s]*[:_-]?\s*([a-z]+(?:[_\s]+[a-z]+)?)/i` -/
def studentP5 : RE :=
  .seq (.lit (str "student")) (.seq (.rep isWsU false)
    (.seq (.opt (.cls (fun c => c = ':' || c = '_' || c = '-')))
      (.seq (.rep isSpaceC false) nameGrp)))

/-- `/([a-z]+(?:[_\s]+[a-z]+)?)[_\s]*(?:week|wk|session)/i` -/
def studentP6 : RE :=
  .seq nameGrp (.seq (.rep isWsU false)
    (.alt (.lit (str "week")) (.alt (.lit (str "wk")) (.lit (str "session")))))

/-- `/meeting[_\s]+with[_\s]+([a-z]+(?:[_\s]+[a-z]+)?)/i` -/
def studentP7 : RE :=
  .seq (.lit (str "meeting")) (.seq (.rep isWsU true) (.seq (.lit (str "with"))
    (.seq (.rep isWsU true) nameGrp)))

/-- `/([a-z]+(?:[_\s]+[a-z]+)?)[_\s]*x[_\s]*([a-z]+)/i` -/
def studentP8 : RE :=
  .seq nameGrp (.seq (.rep isWsU false) (.seq (.lit (str "x"))
    (.seq (.rep isWsU false) (.grp (.rep isAlphaC true)))))

/-- The ordered student `patterns` list. -/
def studentPatterns : List RE :=
  [studentP1, studentP2, studentP3, studentP4, studentP5, studentP6, studentP7,
   studentP8]

/-- The dynamic fallback pattern
    `new RegExp(coachEscaped + "[_\\s]*_{2,}[_\\s]*([a-z]+(?:aa)?)", "i")`. -/
def coachFallbackPattern (coach : Str) : RE :=
  .seq (.lit coach) (.seq (.rep isWsU false) (.seq (.lit (str "__"))
    (.seq (.rep (fun ch => ch = '_') false) (.seq (.rep isWsU false)
      (.grp (.seq (.rep isAlphaC true) (.opt (.lit (str "aa")))))))))

/-- `extractStudentFromRecordingInfo(topic, coach)`. -/
def extractStudentFromRecordingInfo (topic : Str) (coach : Option Str) : Option Str :=
  let parts := splitChar '_' topic
  let branchA : Option Str :=
    match coach with
    | some c =>
      if parts.length ≥ 3 && decide (lower (parts.headD []) = lower c) then
        let remainingParts := (parts.drop 1).filter (fun p => !allDigits p)
        if remainingParts.length ≥ 2 then
          let hyphenatedIndex := remainingParts.findIdx (fun p => p.contains '-')
          if hyphenatedIndex < remainingParts.length && hyphenatedIndex > 0 then
            let firstName := remainingParts.getD (hyphenatedIndex - 1) []
            let lastName := remainingParts.getD hyphenatedIndex []
            let fullName := capitalizeWord firstName ++ ' ' :: capitalizeWord lastName
            if !isCompanyName fullName then some fullName else none
          else if remainingParts.length = 2 then
            let fullName := capitalizeWord (remainingParts.getD 0 []) ++
              ' ' :: capitalizeWord (remainingParts.getD 1 [])
            if !isCompanyName fullName then some fullName else none
          else none
        else none
      else none
    | none => none
  match branchA with
  | some s => some s
  | none =>
    match studentPatterns.findSome? (fun pat =>
        match search1 pat topic with
        | some cap =>
          if (match coach with
              | some c => decide (lower cap ≠ lower c)
              | none => true) then
            let formatted := List.intercalate [' '] ((splitChar '_' cap).map capitalizeWord)
            if !isCompanyName formatted then some formatted else none
          else none
        | none => none) with
    | some s => some s
    | none =>
      match coach with
      | some c =>
        match search1 (coachFallbackPattern c) topic with
        | some cap =>
          if !([str "week", str "wk", str "meeting", str "zoom", str "game",
                str "plan", str "prep"].contains (lower cap)) then
            if !isCompanyName cap then some (capitalizeWord cap) else none
          else none
        | none => none
      | none => none

/-! ### Timeline documents and their two parsers -/

/-- A user entry of a timeline event. -/
structure TLUser where
  username : Option Str
  email_address : Option Str
  zoom_userid : Option Str
  user_id : Option Str
deriving DecidableEq

/-- A timeline event (`{"ts": …, "users": […]}`); only `users` is consulted. -/
structure TLEvent where
  users : Option (List TLUser)
deriving DecidableEq

/-- A parsed timeline JSON document. -/
structure TLDoc where
  timeline : Option (List TLEvent)
deriving DecidableEq

/-- A deduplicated participant as stored in `usersFound`. -/
structure PUser where
  username : Str
  email : Str
  isCoach : Bool
deriving DecidableEq

/-- `Map.set`: overwrite an existing key in place, else append. -/
def upsert (k : Str) (v : PUser) : List (Str × PUser) → List (Str × PUser)
  | [] => [(k, v)]
  | (k', v') :: t => if k' = k then (k, v) :: t else (k', v') :: upsert k v t

/-- One user of one event in `parseTimelineForParticipants`. -/
def stepUserBasic (acc : List (Str × PUser)) (u : TLUser) : List (Str × PUser) :=
  match u.username with
  | none => acc
  | some un =>
    if un = [] then acc
    else
      let email := u.email_address.getD []
      let userId := orTruthy u.zoom_userid (orTruthy u.user_id (orTruthy (some email) un))
      if allDigits un || decide (lower un = str "ivylevel") then acc
      else upsert userId ⟨un, email, isLikelyCoach un email⟩ acc

/-- The user-collection loop of `parseTimelineForParticipants`. -/
def collectBasic (evs : List TLEvent) : List (Str × PUser) :=
  evs.foldl (fun acc ev =>
    match ev.users with
    | some us => us.foldl stepUserBasic acc
    | none => acc) []

/-- Result shape of `parseTimelineForParticipants`. -/
structure BasicResult where
  coach : Option Str
  student : Option Str
  participants : List PUser
  confCoach : ℚ
  confStudent : ℚ
deriving DecidableEq

/-- `parseTimelineForParticipants(timelineData)`. -/
def parseTimelineForParticipants (doc : TLDoc) : BasicResult :=
  match doc.timeline with
  | none => ⟨none, none, [], 0, 0⟩
  | some evs =>
    let usersFound := collectBasic evs
    let parts := usersFound.map Prod.snd
    let coaches := (parts.filter (·.isCoach)).map (·.username)
    let students := (parts.filter (fun u => !u.isCoach)).map (·.username)
    let coach : Option Str := coaches.head?
    let confCoach : ℚ := if coaches.isEmpty then 0 else 0.8
    let student : Option Str := students.head?
    let confStudent : ℚ := if students.isEmpty then 0 else 0.8
    if !(optTruthy coach) && parts.length ≥ 2 then
      match parts.find? (fun u => u.email ≠ [] && isCoachEmail u.email) with
      | some coachUser =>
        let coach' := some coachUser.username
        let student' := (parts.find? (fun u => u.username ≠ coachUser.username)).map (·.username)
        ⟨coach', student', parts, 0.9, 0.7⟩
      | none => ⟨coach, student, parts, confCoach, confStudent⟩
    else ⟨coach, student, parts, confCoach, confStudent⟩

/-- One user of one event in `parseTimelineForParticipantsEnhanced`; the state is
    `(usersFound, hasOnlyContactEmail, hasOtherCoachEmail)`. -/
def stepUserEnh (st : List (Str × PUser) × Bool × Bool) (u : TLUser) :
    List (Str × PUser) × Bool × Bool :=
  let (acc, hasOnly, hasOther) := st
  match u.username with
  | none => st
  | some un =>
    if un = [] then st
    else
      let email := u.email_address.getD []
      let userId := orTruthy u.zoom_userid (orTruthy u.user_id (orTruthy (some email) un))
      if allDigits un || decide (lower un = str "ivylevel") || isCompanyName un then st
      else
        let flags :=
          if email ≠ [] && containsSub email (str "@ivymentors.co") then
            (hasOnly, if email ≠ str "contact@ivymentors.co" then true else hasOther)
          else if email ≠ [] then (false, hasOther)
          else (hasOnly, hasOther)
        (upsert userId ⟨un, email, isLikelyCoach un email⟩ acc, flags.1, flags.2)

/-- Whether one user occurrence passes the enhanced parser's collection
    guards (username present and nonempty, not numeric, not the literal
    `ivylevel`, not a company name). -/
def enhCollected (u : TLUser) : Bool :=
  match u.username with
  | none => false
  | some un =>
    decide (un ≠ []) &&
      !(allDigits un || decide (lower un = str "ivylevel") || isCompanyName un)

/-- The user-collection loop of the enhanced parser, threading the two flags. -/
def collectEnh (evs : List TLEvent) : List (Str × PUser) × Bool × Bool :=
  evs.foldl (fun st ev =>
    match ev.users with
    | some us => us.foldl stepUserEnh st
    | none => st) ([], true, false)

/-- Result shape of `parseTimelineForParticipantsEnhanced`. -/
structure EnhResult where
  coach : Option Str
  student : Option Str
  participants : List PUser
  confCoach : ℚ
  confStudent : ℚ
  isIvylevel : Bool
deriving DecidableEq

/-- `parseTimelineForParticipantsEnhanced(timelineData)`. -/
def parseTimelineForParticipantsEnhanced (doc : TLDoc) : EnhResult :=
  match doc.timeline with
  | none => ⟨none, none, [], 0, 0, false⟩
  | some evs =>
    let st := collectEnh evs
    let usersFound := st.1
    let isIvylevel := st.2.1 && !st.2.2
    let parts := usersFound.map Prod.snd
    let coaches := (parts.filter (·.isCoach)).map (·.username)
    let students := (parts.filter (fun u => !u.isCoach)).map (·.username)
    let (coach, confCoach) : Option Str × ℚ :=
      if isIvylevel then (some (str "Ivylevel"), 0.9)
      else
        match coaches with
        | c :: _ => (some c, 0.9)
        | [] => (none, 0)
    let (student, confStudent) : Option Str × ℚ :=
      match students.filter (fun s => !isCompanyName s) with
      | s :: _ => (some s, 0.9)
      | [] => (none, 0)
    if !(optTruthy coach) && usersFound.length ≥ 2 then
      match parts.find? (fun u => u.email ≠ [] && isCoachEmail u.email) with
      | some coachUser =>
        match parts.find? (fun u =>
            u.username ≠ coachUser.username && !isCompanyName u.username) with
        | some studentUser =>
          ⟨some coachUser.username, some studentUser.username, parts, 0.9, 0.7, isIvylevel⟩
        | none => ⟨some coachUser.username, student, parts, 0.9, confStudent, isIvylevel⟩
      | none => ⟨coach, student, parts, confCoach, confStudent, isIvylevel⟩
    else ⟨coach, student, parts, confCoach, confStudent, isIvylevel⟩

/-! ### Transcript / chat analysis results and the merge cascade -/

/-- Role identified for a transcript speaker. -/
inductive Role where
  | coach
  | student
deriving DecidableEq

/-- A speaker aggregate of `analyzeTranscript` (fields consulted by the merge). -/
structure Speaker where
  possibleNames : List Str
  messageCount : Nat
  identifiedRole : Option Role
deriving DecidableEq

/-- Result of `analyzeTranscript` (the fetch itself is an external effect; the
    merge consumes this value, `none` covering both a missing transcript file
    and a failed analysis). -/
structure TranscriptAnalysis where
  speakers : List Speaker
deriving DecidableEq

/-- A chat participant aggregate of `analyzeChatFile`. -/
structure ChatParticipant where
  name : Str
  messageCount : Nat
  isLikelyCoach : Bool
  isLikelyStudent : Bool
deriving DecidableEq

/-- Result of `analyzeChatFile`. -/
structure ChatAnalysis where
  participants : List ChatParticipant
deriving DecidableEq

/-- The mutable `metadata` object of the fusion cascade. -/
structure Meta where
  coach : Option Str
  student : Option Str
  weekNumber : Option Str
  participants : List PUser
  confCoach : ℚ
  confStudent : ℚ
  confWeek : ℚ
  srcCoach : Option Str
  srcStudent : Option Str
  srcWeek : Option Str
deriving DecidableEq

/-- The all-`null` initial metadata. -/
def emptyMeta : Meta := ⟨none, none, none, [], 0, 0, 0, none, none, none⟩

/-- The webhook `recording` object (fields consulted by the fusion cascade);
    `start_time` is modelled as milliseconds since the epoch. -/
structure Recording where
  topic : Str
  host_email : Option Str
  host_id : Option Str
  participants : Option (List RPart)
  start_time : Int
deriving DecidableEq

/-- A row of the `studentMappings` sheet; `startDate` is modelled as
    milliseconds since the epoch (`none` for a missing/empty cell). -/
structure StudentInfo where
  name : Str
  coach : Str
  coachEmail : Str
  program : Str
  startDate : Option Int
deriving DecidableEq

/-- The `studentMappings` map, as an insertion-ordered association list. -/
abbrev Mappings := List (Str × StudentInfo)

/-- `studentMappings.get(key)`. -/
def mapGet (mp : Mappings) (k : Str) : Option StudentInfo :=
  (mp.find? (fun p => p.1 = k)).map Prod.snd

/-- `identifyStudent(recording)`. -/
def identifyStudent (mp : Mappings) (rec : Recording) : Option Str :=
  let topicL := lower rec.topic
  match mp.findSome? (fun p =>
      let nameParts := splitChar ' ' (lower p.2.name)
      let emailPrefix := lower ((splitChar '@' p.1).headD [])
      if nameParts.any (fun part => decide (part.length > 2) && containsSub topicL part) ||
          containsSub topicL emailPrefix then
        some p.1
      else none) with
  | some e => some e
  | none =>
    match rec.host_email with
    | some he =>
      let hl := lower he
      if (mapGet mp hl).isSome then some hl else none
    | none => none

/-- `⌈a / b⌉` for `b > 0` (the exact value of `Math.ceil` on the quotient). -/
def ceilDiv (a b : Int) : Int := Int.ediv (a + b - 1) b

/-- `calculateWeekNumber(studentEmail, meetingDate)`. -/
def calculateWeekNumber (mp : Mappings) (studentEmail : Str) (meetingDate : Int) : Int :=
  match mapGet mp studentEmail with
  | none => 1
  | some info =>
    match info.startDate with
    | none => 1
    | some start =>
      let diffDays := ceilDiv (meetingDate - start) 86400000
      max 1 (min (ceilDiv diffDays 7) 52)

/-- Decimal rendering of an integer (JavaScript template-literal coercion). -/
def intStr (n : Int) : Str := (toString n).data

/-- Step 1 of `extractMetadataFromAllSources`: topic/host extraction. -/
def stageTopic (rec : Recording) : Meta :=
  let c := extractCoachFromRecordingInfo rec.topic rec.host_email rec.participants
  let m1 : Meta :=
    { emptyMeta with
      coach := c
      confCoach := if optTruthy c then 0.7 else 0
      srcCoach := if optTruthy c then some (str "topic/host") else none }
  let s := extractStudentFromRecordingInfo rec.topic c
  let m2 :=
    { m1 with
      student := s
      confStudent := if optTruthy s then 0.7 else 0
      srcStudent := if optTruthy s then some (str "topic") else none }
  let w := extractWeekNumber rec.topic
  { m2 with
    weekNumber := w
    confWeek := if optTruthy w then 0.8 else 0
    srcWeek := if optTruthy w then some (str "topic") else none }

/-- Step 2 of `extractMetadataFromAllSources`: merge the basic timeline result. -/
def mergeTimelineBasic (tl : Option BasicResult) (m : Meta) : Meta :=
  match tl with
  | none => m
  | some td =>
    let m := { m with participants := td.participants }
    let m :=
      if optTruthy td.coach && (!(optTruthy m.coach) || decide (m.confCoach < td.confCoach)) then
        { m with coach := td.coach, confCoach := td.confCoach,
                 srcCoach := some (str "timeline") }
      else m
    if optTruthy td.student &&
        (!(optTruthy m.student) || decide (m.confStudent < td.confStudent)) then
      { m with student := td.student, confStudent := td.confStudent,
               srcStudent := some (str "timeline") }
    else m

/-- Merge of one transcript speaker (step 3 loop body). -/
def transcriptSpeakerStep (m : Meta) (sp : Speaker) : Meta :=
  if sp.identifiedRole = some .coach && decide (sp.possibleNames ≠ []) then
    match sp.possibleNames.find? (fun n => knownCoachNames.contains (lower n)) with
    | some n =>
      if !(optTruthy m.coach) || decide (m.confCoach < 0.85) then
        { m with coach := some (capitalizeWord n), confCoach := 0.85,
                 srcCoach := some (str "transcript") }
      else m
    | none => m
  else if sp.identifiedRole = some .student && decide (sp.possibleNames ≠ []) then
    match sp.possibleNames with
    | [] => m
    | n :: _ =>
      if !(optTruthy m.student) || decide (m.confStudent < 0.85) then
        { m with student := some n, confStudent := 0.85,
                 srcStudent := some (str "transcript") }
      else m
  else m

/-- Step 3 of `extractMetadataFromAllSources`: transcript merge. -/
def mergeTranscript (ta : Option TranscriptAnalysis) (m : Meta) : Meta :=
  match ta with
  | none => m
  | some td =>
    if !(optTruthy m.coach) || !(optTruthy m.student) ||
        decide (m.confCoach < 0.8) || decide (m.confStudent < 0.8) then
      td.speakers.foldl transcriptSpeakerStep m
    else m

/-- Merge of one chat participant (step 4 loop body). -/
def chatParticipantStep (m : Meta) (p : ChatParticipant) : Meta :=
  let nameLower := lower p.name
  let m :=
    match knownCoachNames.find? (fun cn => containsSub nameLower cn) with
    | some cn =>
      if !(optTruthy m.coach) || decide (m.confCoach < 0.6) then
        { m with coach := some (capitalizeWord cn), confCoach := 0.6,
                 srcCoach := some (str "chat") }
      else m
    | none => m
  if p.isLikelyCoach && !(optTruthy m.coach) then
    let firstName := (splitChar ' ' p.name).headD []
    if knownCoachNames.contains (lower firstName) then
      { m with coach := some firstName, confCoach := 0.5,
               srcCoach := some (str "chat+behavior") }
    else m
  else m

/-- Step 4 of `extractMetadataFromAllSources`: chat merge. -/
def mergeChat (ca : Option ChatAnalysis) (m : Meta) : Meta :=
  match ca with
  | none => m
  | some cd =>
    if !(optTruthy m.coach) || !(optTruthy m.student) ||
        decide (m.confCoach < 0.7) || decide (m.confStudent < 0.7) then
      cd.participants.foldl chatParticipantStep m
    else m

/-- Step 5 of `extractMetadataFromAllSources`: enhanced week extraction over the
    concatenation of topic, participant usernames and host id. -/
def stageWeekEnhanced (rec : Recording) (m : Meta) : Meta :=
  if !(optTruthy m.weekNumber) || decide (m.confWeek < 0.7) then
    let allText :=
      List.intercalate [' ']
        ([rec.topic] ++ m.participants.map (fun p => p.username) ++ [rec.host_id.getD []])
    match firstPatternCapture enhancedWeekPatterns allText with
    | some w =>
      { m with weekNumber := some w, confWeek := 0.75,
               srcWeek := some (str "enhanced_patterns") }
    | none => m
  else m

/-- Step 6 of `extractMetadataFromAllSources`: date-based week fallback. -/
def stageWeekCalc (rec : Recording) (mp : Mappings) (m : Meta) : Meta :=
  if !(optTruthy m.weekNumber) then
    match identifyStudent mp rec with
    | some e =>
      { m with weekNumber := some (intStr (calculateWeekNumber mp e rec.start_time)),
               confWeek := 0.6, srcWeek := some (str "calculated") }
    | none => m
  else m

/-- `extractMetadataFromAllSources(recording, tempFiles, timelineData)`, with the
    fetched transcript/chat analyses passed as values (`none` = file absent or
    analysis failed). -/
def extractMetadataFromAllSources (rec : Recording) (tl : Option BasicResult)
    (ta : Option TranscriptAnalysis) (ca : Option ChatAnalysis) (mp : Mappings) : Meta :=
  stageWeekCalc rec mp (stageWeekEnhanced rec
    (mergeChat ca (mergeTranscript ta (mergeTimelineBasic tl (stageTopic rec)))))

/-- The patch-7b company-name filter of `processWebhookPayload`. -/
def companyNameFilter (m : Meta) : Meta :=
  let m :=
    if optTruthy m.coach && isCompanyName (m.coach.getD []) then
      { m with coach := none, confCoach := 0 }
    else m
  if optTruthy m.student && isCompanyName (m.student.getD []) then
    { m with student := none, confStudent := 0 }
  else m

/-- The patch-7b enhanced-timeline merge of `processWebhookPayload`. -/
def mergeTimelineEnhanced (tp : Option EnhResult) (m : Meta) : Meta :=
  match tp with
  | none => m
  | some t =>
    if t.isIvylevel then
      { m with coach := some (str "Ivylevel"), confCoach := 0.9,
               srcCoach := some (str "timeline_ivylevel") }
    else
      let m :=
        if optTruthy t.coach && (!(optTruthy m.coach) || decide (m.confCoach < t.confCoach)) then
          { m with coach := t.coach, confCoach := t.confCoach,
                   srcCoach := some (str "timeline_enhanced") }
        else m
      if optTruthy t.student &&
          (!(optTruthy m.student) || decide (m.confStudent < t.confStudent)) then
        { m with student := t.student, confStudent := t.confStudent,
                 srcStudent := some (str "timeline_enhanced") }
      else m

/-- The student-mappings fallback of `processWebhookPayload` (lines 1326–1347). -/
def mappingsFallback (rec : Recording) (mp : Mappings) (isSiraj : Bool) (m : Meta) : Meta :=
  if !(optTruthy m.student) && !isSiraj then
    match identifyStudent mp rec with
    | some e =>
      match mapGet mp e with
      | some info =>
        let m := { m with student := some info.name, confStudent := 0.9,
                          srcStudent := some (str "mappings") }
        let m :=
          if !(optTruthy m.coach) then
            { m with coach := some info.coach, confCoach := 0.9,
                     srcCoach := some (str "mappings") }
          else m
        if !(optTruthy m.weekNumber) then
          { m with weekNumber := some (intStr (calculateWeekNumber mp e rec.start_time)),
                   confWeek := 0.7, srcWeek := some (str "calculated") }
        else m
      | none => m
    | none => m
  else m

/-- The finalized metadata of one webhook invocation. -/
structure FinalRecord where
  meta : Meta
  hasGamePlan : Bool
  isSiraj : Bool
  flagged : Bool
deriving DecidableEq

/-- The metadata-fusion portion of `processWebhookPayload` (step 3 through the
    manual-review gate): a pure function of the recording, the parsed timeline
    document, the transcript/chat analyses, and the student mappings. -/
def processWebhookMetadata (rec : Recording) (timelineJson : Option TLDoc)
    (ta : Option TranscriptAnalysis) (ca : Option ChatAnalysis) (mp : Mappings) :
    FinalRecord :=
  let isSiraj := isSirajRecording rec.topic
  let step3 : Meta × Bool :=
    if isSiraj then
      ({ emptyMeta with coach := some (str "Siraj"), confCoach := 1,
                        srcCoach := some (str "siraj_pattern") }, false)
    else
      let timelineData := timelineJson.map parseTimelineForParticipants
      let timelineParticipants := timelineJson.map parseTimelineForParticipantsEnhanced
      let m := extractMetadataFromAllSources rec timelineData ta ca mp
      let hasGamePlan := hasGamePlanIndicator rec.topic
      let m := companyNameFilter m
      let m := mergeTimelineEnhanced timelineParticipants m
      (m, hasGamePlan)
  let m := step3.1
  let hasGamePlan := step3.2
  let m := mappingsFallback rec mp isSiraj m
  let m :=
    if !(optTruthy m.coach) && !isSiraj then { m with coach := some (str "Unknown Coach") }
    else m
  let m :=
    if !(optTruthy m.student) && !isSiraj then
      { m with student := some (str "Unknown Student") }
    else m
  let studentEmail := (identifyStudent mp rec).getD (str "unknown@email.com")
  let m :=
    if !(optTruthy m.weekNumber) && !isSiraj then
      { m with
        weekNumber := some (intStr (calculateWeekNumber mp studentEmail rec.start_time)),
        confWeek := 0.6, srcWeek := some (str "calculated_fallback") }
    else m
  let flagged := !isSiraj && (decide (m.confCoach < 0.5) || decide (m.confStudent < 0.5))
  ⟨m, hasGamePlan, isSiraj, flagged⟩

/-! ### File-name generation (`generateStandardizedFileNameEnhanced`) -/

theorem matchLitCI_some_length {p s r : Str} (h : matchLitCI p s = some r) :
    r.length + p.length = s.length := by
  induction p generalizing s with
  | nil =>
    simp [matchLitCI] at h
    subst h; simp
  | cons a p ih =>
    cases s with
    | nil => simp [matchLitCI] at h
    | cons c t =>
      simp only [matchLitCI] at h
      split at h
      · have := ih h
        simp only [List.length_cons]
        omega
      · exact absurd h (by simp)

/-- Fuel-indexed worker for `removeSirajCI`. -/
def removeSirajCIF : Nat → Str → Str
  | _, [] => []
  | 0, s => s
  | fuel + 1, c :: t =>
    match matchLitCI (str "siraj") (c :: t) with
    | some rest => removeSirajCIF fuel rest
    | none => c :: removeSirajCIF fuel t

/-- JavaScript `replace(/needle/gi, '')` specialized to `needle = "siraj"`
    (a match consumes five characters, so `length` fuel is enough). -/
def removeSirajCI (s : Str) : Str := removeSirajCIF s.length s

/-- Fuel-indexed worker for `removeFirstLongDigits`. -/
def removeFirstLongDigitsF : Nat → Str → Str
  | _, [] => []
  | 0, s => s
  | fuel + 1, c :: t =>
    if isDigitC c then
      let run := c :: t.takeWhile isDigitC
      let rest := t.dropWhile isDigitC
      if run.length ≥ 10 then rest else run ++ removeFirstLongDigitsF fuel rest
    else c :: removeFirstLongDigitsF fuel t

/-- JavaScript `replace(/\d{10,}/, '')`: remove the leftmost run of at least ten
    digits (first match only). -/
def removeFirstLongDigits (s : Str) : Str := removeFirstLongDigitsF s.length s

/-- Fuel-indexed worker for `collapseClassToChar`. -/
def collapseClassToCharF (f : Char → Bool) (r : Char) : Nat → Str → Str
  | _, [] => []
  | 0, s => s
  | fuel + 1, c :: t =>
    if f c then r :: collapseClassToCharF f r fuel (t.dropWhile f)
    else c :: collapseClassToCharF f r fuel t

/-- JavaScript `replace(/[cls]+/g, r)` for a one-character replacement:
    collapse each maximal class run to the single character `r`. -/
def collapseClassToChar (f : Char → Bool) (r : Char) (s : Str) : Str :=
  collapseClassToCharF f r s.length s

/-- Leftmost case-insensitive occurrence of a literal, returning the matched
    slice of the haystack (`match[0]`). -/
def findCISlice (needle : Str) : Str → Option Str
  | [] => if needle = [] then some [] else none
  | c :: t =>
    match matchLitCI needle (c :: t) with
    | some _ => some ((c :: t).take needle.length)
    | none => findCISlice needle t

/-- `/(?:&|and|with)\s+([A-Za-z]+)/i` -/
def sirajNamesRE : RE :=
  .seq (.alt (.lit (str "&")) (.alt (.lit (str "and")) (.lit (str "with"))))
    (.seq (.rep isSpaceC true) (.grp (.rep isAlphaC true)))

/-- `/([A-Za-z]+)/` -/
def firstAlphaRunRE : RE := .grp (.rep isAlphaC true)

/-- `extractContextFromSirajFolder(folderName)`. -/
def extractContextFromSirajFolder (folderName : Str) : Option Str :=
  let cleaned :=
    trimS (collapseClassToChar isSpaceC ' '
      (collapseClassToChar (fun c => c = '_') ' '
        (removeFirstLongDigits (removeSirajCI folderName))))
  let contextLits :=
    [str "checkpoint", str "review", str "planning", str "strategy",
     str "meeting", str "discussion", str "presentation"]
  match contextLits.findSome? (fun l => findCISlice l cleaned) with
  | some matched =>
    match search1 sirajNamesRE cleaned with
    | some nm => if nm ≠ [] then some (matched ++ '_' :: nm) else some matched
    | none => some matched
  | none =>
    match search1 firstAlphaRunRE cleaned with
    | some nm => if nm.length > 2 then some nm else none
    | none => none

/-- The name-cleaning prefix of `generateStandardizedFileNameEnhanced`:
    `replace(/[^a-zA-Z0-9\s-]/g,'_').replace(/\s+/g,' ').trim()`. -/
def cleanNameEnh (s : Str) : Str :=
  trimS (collapseClassToChar isSpaceC ' '
    (s.map (fun c => if isAlnumC c || isSpaceC c || c = '-' then c else '_')))

/-- `generateStandardizedFileNameEnhanced(fileType, coach, student, weekNumber,
    date, meetingId, hasGamePlan, isSiraj, isIvylevel)`; `meetingId` is unused by
    the enhanced variant but kept in the signature. -/
def generateStandardizedFileNameEnhanced (fileType : Str) (coach student : Str)
    (weekNumber : Option Str) (date : Str) (_meetingId : Option Str)
    (hasGamePlan isSiraj isIvylevel : Bool) : Str :=
  let cleanCoach := cleanNameEnh coach
  let cleanStudent := cleanNameEnh student
  let baseName :=
    if isSiraj then
      match extractContextFromSirajFolder cleanStudent with
      | some context => str "MISC_Siraj_" ++ context ++ '_' :: cleanStudent
      | none => str "MISC_Siraj_" ++ cleanStudent
    else if isIvylevel then str "Ivylevel_" ++ cleanStudent
    else cleanCoach ++ '_' :: cleanStudent
  let baseName := collapseClassToChar isSpaceC '_' baseName
  let baseName := if hasGamePlan && !isSiraj then baseName ++ str "_GamePlan" else baseName
  let baseName :=
    if optTruthy weekNumber && !isSiraj then
      baseName ++ str "_Wk" ++ weekNumber.getD []
    else baseName
  let baseName := baseName ++ '_' :: date
  let sfx : Str × Str :=
    if fileType = str "MP4" then (str "_Video", str ".mp4")
    else if fileType = str "M4A" then (str "_Audio", str ".m4a")
    else if fileType = str "TRANSCRIPT" || fileType = str "VTT" then
      (str "_Transcript", str ".vtt")
    else if fileType = str "CHAT" then (str "_Chat", str ".txt")
    else if fileType = str "TIMELINE" then (str "_Timeline", str ".json")
    else ([], [])
  baseName ++ sfx.1 ++ sfx.2

/-- A concrete timeline document: one event whose only user is the shared
    contact account contact@ivymentors.co. -/
def doc2 : TLDoc :=
  ⟨some [⟨some [⟨some (str "contact"), some (str "contact@ivymentors.co"),
    none, none⟩]⟩]⟩

/-- A concrete prior metadata record: coach "Jenny" already extracted from the
    topic at confidence 0.95. -/
def metaJenny : Meta :=
  { emptyMeta with
    coach := some (str "Jenny")
    confCoach := 0.95
    srcCoach := some (str "topic_pattern") }

/-- A concrete timeline document with users but no qualifying participant: a
    purely numeric username, the literal "IvyLevel", and a company name. -/
def doc10 : TLDoc :=
  ⟨some [⟨some [⟨some (str "16504441234"), some (str "a@b.com"), none, none⟩,
    ⟨some (str "IvyLevel"), none, none, none⟩]⟩,
   ⟨some [⟨some (str "Acme Consulting LLC"), some (str "x@acme.com"),
      none, none⟩]⟩]⟩

/-- Spec predicate (§C1): one merge step respects an already-accepted coach —
    its confidence does not decrease, and its value is replaced only when the
    step's confidence strictly exceeds the current one. -/
def CoachMono (m m' : Meta) : Prop :=
  optTruthy m.coach = true →
    m.confCoach ≤ m'.confCoach ∧ (m'.coach ≠ m.coach → m.confCoach < m'.confCoach)

/-- Spec predicate (§C1): the student counterpart of `CoachMono`. -/
def StudentMono (m m' : Meta) : Prop :=
  optTruthy m.student = true →
    m.confStudent ≤ m'.confStudent ∧
      (m'.student ≠ m.student → m.confStudent < m'.confStudent)

/-- Spec predicate (§C1): a merge stage is monotone on accepted fields. -/
def MonoStep (f : Meta → Meta) : Prop :=
  ∀ m, CoachMono m (f m) ∧ StudentMono m (f m)

def rec1 : Recording := ⟨str "xmq", none, none, none, 0⟩

def doc1 : TLDoc :=
  ⟨some [⟨some [⟨some (str "Ivy Mentors Group"), some (str "a@ivymentors.co"),
      none, none⟩,
    ⟨some (str "Bob Jones"), some (str "bob@gmail.com"), none, none⟩]⟩]⟩

/-- The mappings sheet row used by the C4 counterexample: company-indicator
    names stored as student and coach. -/
def mpAcme : Mappings :=
  [(str "xmq@x.com",
    ⟨str "Acme Consulting", str "Consulting Partners LLC", str "", str "P", some 0⟩)]

/-- The spec's week formula (§C8): clamp(ceil(days / 7), 1, 52) over the
    ceiling day-difference — stated from the spec's words, to be compared
    with `calculateWeekNumber`. -/
def specClampWeek (date start : Int) : Int :=
  max 1 (min (ceilDiv (ceilDiv (date - start) 86400000) 7) 52)

end ZW.RP

namespace ZW.LRA
/-! ## `LocalRecordingAnalyzer` (src/local-recording-analyzer.js) -/

open ZW

/-- The analyzer's `knownCoachNames` set (same thirteen names). -/
def knownCoachNames : List Str := ZW.RP.knownCoachNames

/-- The analyzer's `capitalizeWord(word)`: hyphenated names are capitalized
    per hyphen-separated segment. -/
def capitalizeWord (word : Str) : Str :=
  if word.contains '-' then
    List.intercalate ['-'] ((splitChar '-' word).map (fun part =>
      match part with
      | [] => []
      | c :: t => upperChar c :: lower t))
  else
    match word with
    | [] => []
    | c :: t => upperChar c :: lower t

/-- The analyzer's `isSirajRecording(folderName)` with its three
    surname-exception patterns. -/
def isSirajRecording (folderName : Str) : Bool :=
  let lowerName := lower folderName
  if !containsSub lowerName (str "siraj") then false
  else
    let sirajStudents := [str "sameeha_siraj", str "huda_siraj", str "alice_siraj"]
    if sirajStudents.any (fun p => containsSub lowerName p) then false
    else true

/-- `/siraj\s*(?:&|and)\s+([A-Za-z]+)/i` -/
def sirajStudentPattern : RE :=
  .seq (.lit (str "siraj")) (.seq (.rep isSpaceC false)
    (.seq (.alt (.lit (str "&")) (.lit (str "and")))
      (.seq (.rep isSpaceC true) (.grp (.rep isAlphaC true)))))

/-- The analyzer's per-folder `result` object (extraction-relevant fields). -/
structure AResult where
  coach : Option Str
  student : Option Str
  week : Option Str
  hasGamePlan : Bool
  isSiraj : Bool
  isIvylevel : Bool
  confCoach : ℚ
  confStudent : ℚ
  confWeek : ℚ
  srcCoach : Option Str
  srcStudent : Option Str
  srcWeek : Option Str
deriving DecidableEq

/-- The freshly initialized `result` of `processRecordingFolder`. -/
def initialResult : AResult :=
  ⟨none, none, none, false, false, false, 0, 0, 0, none, none, none⟩

/-- `extractFromFolderName(folderName, result)` (lines 159–307). -/
def extractFromFolderName (folderName : Str) (result : AResult) : AResult :=
  let parts := splitChar '_' folderName
  if result.isSiraj then
    match search1 sirajStudentPattern folderName with
    | some nm =>
      { result with student := some (capitalizeWord nm), confStudent := 0.8,
                    srcStudent := some (str "folder_name_siraj_pattern") }
    | none => result
  else
    let r := result
    let r :=
      if parts.length ≥ 4 && knownCoachNames.contains (lower (parts.headD [])) then
        let r := { r with coach := some (capitalizeWord (parts.headD [])),
                          confCoach := 0.85, srcCoach := some (str "folder_name_pattern") }
        let remainingParts := (parts.drop 1).filter (fun p => !allDigits p)
        if remainingParts.length ≥ 2 then
          let hyphenatedIndex := remainingParts.findIdx (fun p => p.contains '-')
          if hyphenatedIndex < remainingParts.length && hyphenatedIndex > 0 then
            let firstName := remainingParts.getD (hyphenatedIndex - 1) []
            let lastName := remainingParts.getD hyphenatedIndex []
            let r :=
              if hyphenatedIndex = 2 && remainingParts.length = 3 then
                { r with
                  student := some (capitalizeWord firstName ++ ' ' ::
                    capitalizeWord lastName) }
              else if hyphenatedIndex = 1 then
                { r with
                  student := some (capitalizeWord firstName ++ ' ' ::
                    capitalizeWord lastName) }
              else r
            if optTruthy r.student then
              { r with confStudent := 0.85,
                       srcStudent := some (str "folder_name_pattern_hyphenated") }
            else r
          else if remainingParts.length = 2 then
            { r with
              student := some (capitalizeWord (remainingParts.getD 0 []) ++
                ' ' :: capitalizeWord (remainingParts.getD 1 [])),
              confStudent := 0.8, srcStudent := some (str "folder_name_pattern") }
          else if remainingParts.length ≥ 3 then
            let lastTwo := remainingParts.drop (remainingParts.length - 2)
            { r with
              student := some (capitalizeWord (lastTwo.getD 0 []) ++
                ' ' :: capitalizeWord (lastTwo.getD 1 [])),
              confStudent := 0.75, srcStudent := some (str "folder_name_pattern") }
          else r
        else r
      else r
    let r :=
      if !(optTruthy r.coach) then
        let coachIndex := parts.findIdx (fun p => knownCoachNames.contains (lower p))
        if coachIndex < parts.length then
          let r := { r with coach := some (capitalizeWord (parts.getD coachIndex [])),
                            confCoach := 0.8, srcCoach := some (str "folder_name_pattern") }
          if coachIndex > 0 && !(optTruthy r.student) then
            if coachIndex ≥ 2 && !allDigits (parts.getD 0 []) &&
                !allDigits (parts.getD 1 []) then
              { r with
                student := some (capitalizeWord (parts.getD 0 []) ++
                  ' ' :: capitalizeWord (parts.getD 1 [])),
                confStudent := 0.8, srcStudent := some (str "folder_name_pattern") }
            else r
          else r
        else r
      else r
    let r :=
      match firstPatternCapture ZW.RP.weekPatterns folderName with
      | some w =>
        { r with week := some w, confWeek := 0.8, srcWeek := some (str "folder_name") }
      | none => r
    { r with hasGamePlan := ZW.RP.hasGamePlanIndicator folderName }

end ZW.LRA

namespace ZW
/-! ## Groundwork lemmas -/

theorem matchLitCI_self (p r : Str) : matchLitCI p (p ++ r) = some r := by
  induction p with
  | nil => rfl
  | cons c t ih => simp [matchLitCI, ih]

theorem splitChar_no_sep (sep : Char) (s : Str) (h : s.contains sep = false) :
    splitChar sep s = [s] := by
  induction s with
  | nil => rfl
  | cons c t ih =>
    simp only [List.contains_cons, Bool.or_eq_false_iff] at h
    have hc : ¬ (c = sep) := by
      intro hcs
      subst hcs
      simp at h
    rw [splitChar, ih h.2]
    simp [hc]

theorem splitChar_ne_nil (sep : Char) (s : Str) : splitChar sep s ≠ [] := by
  cases s with
  | nil => simp [splitChar]
  | cons c t =>
    rw [splitChar]
    split <;> (split <;> simp)

theorem splitChar_append (sep : Char) (a rest : Str) (h : a.contains sep = false) :
    splitChar sep (a ++ sep :: rest) = a :: splitChar sep rest := by
  induction a with
  | nil =>
    rw [List.nil_append, splitChar]
    cases hr : splitChar sep rest with
    | nil => exact absurd hr (splitChar_ne_nil sep rest)
    | cons x xs => simp
  | cons c t ih =>
    simp only [List.contains_cons, Bool.or_eq_false_iff] at h
    have hc : ¬ (c = sep) := by
      intro hcs
      subst hcs
      simp at h
    rw [List.cons_append, splitChar, ih h.2]
    simp [hc]

theorem contains_of_append_cons (sep : Char) (a b : Str) :
    (a ++ sep :: b).contains sep = true := by
  induction a with
  | nil => simp [List.contains_cons]
  | cons c t ih => simp [List.contains_cons, ih]

end ZW

namespace ZW

theorem lowerChar_hyphen : lowerChar '-' = '-' := by decide

theorem not_mem_of_contains_false {c : Char} {s : Str} (h : s.contains c = false) :
    c ∉ s := by
  induction s with
  | nil => simp
  | cons a t ih =>
    simp only [List.contains_cons, Bool.or_eq_false_iff] at h
    simp only [List.mem_cons]
    rintro (rfl | hm)
    · simp at h
    · exact ih h.2 hm

theorem lower_append_cons (t b : Str) :
    lower (t ++ '-' :: b) = lower t ++ '-' :: lower b := by
  simp [lower, lowerChar_hyphen]

theorem intercalate_pair (s x y : Str) :
    List.intercalate s [x, y] = x ++ s ++ y := by
  simp [List.intercalate, List.intersperse]

/-- C7: the recording-processor's `capitalizeWord` lower-cases everything after
    the first character, so hyphen-separated segments are *not* capitalized
    independently (`mani-munoz` → `Mani-munoz`); per-segment capitalization is
    the behavior of the local analyzer's `capitalizeWord` variant
    (`mani-munoz` → `Mani-Munoz`). -/
theorem C7_theorem :
    (∀ a b : Str, a ≠ [] → a.contains '-' = false → b.contains '-' = false →
      ZW.LRA.capitalizeWord (a ++ '-' :: b) =
        ZW.LRA.capitalizeWord a ++ '-' :: ZW.LRA.capitalizeWord b ∧
      ZW.RP.capitalizeWord (a ++ '-' :: b) =
        ZW.RP.capitalizeWord a ++ '-' :: lower b) ∧
    ZW.LRA.capitalizeWord (str "mani-munoz") = str "Mani-Munoz" ∧
    ZW.RP.capitalizeWord (str "mani-munoz") = str "Mani-munoz" := by
  refine ⟨?_, by decide, by decide⟩
  intro a b ha hac hbc
  constructor
  · have h1 := contains_of_append_cons '-' a b
    have hsplit := splitChar_append '-' a b hac
    have hsplit2 := splitChar_no_sep '-' b hbc
    simp only [ZW.LRA.capitalizeWord.eq_def, h1, hac, hbc, hsplit, hsplit2]
    simp [intercalate_pair]
  · cases a with
    | nil => exact absurd rfl ha
    | cons c t =>
      simp [ZW.RP.capitalizeWord, lower_append_cons]

/-- C7 counterexample: the claimed per-segment capitalization fails on the
    cited `capitalizeWord` (src/recording-processor.js:404). -/
theorem C7_counterexample :
    ZW.RP.capitalizeWord (str "mani-munoz") = str "Mani-munoz" ∧
    str "Mani-munoz" ≠ str "Mani-Munoz" := by decide

/-- C7 witness: the amended theorem applied at `mani-munoz`. -/
theorem C7_witness :
    ZW.LRA.capitalizeWord (str "mani" ++ '-' :: str "munoz") =
      ZW.LRA.capitalizeWord (str "mani") ++ '-' :: ZW.LRA.capitalizeWord (str "munoz") ∧
    ZW.RP.capitalizeWord (str "mani" ++ '-' :: str "munoz") =
      ZW.RP.capitalizeWord (str "mani") ++ '-' :: lower (str "munoz") :=
  C7_theorem.1 (str "mani") (str "munoz") (by decide) (by decide) (by decide)

end ZW

namespace ZW

theorem digit_not_wsU {c : Char} (h : isDigitC c = true) : isWsU c = false := by
  simp only [isDigitC, decide_eq_true_eq] at h
  have h1 : 48 ≤ c.toNat := h.1
  have h2 : c.toNat ≤ 57 := h.2
  simp only [isWsU, isSpaceC, Bool.or_eq_false_iff, decide_eq_false_iff_not]
  constructor
  · intro hc
    rw [hc] at h2
    exact absurd h2 (by decide)
  · rintro (hc | hc | hc | hc | hc | hc)
    · rw [hc] at h1
      exact absurd h1 (by decide)
    · rw [hc] at h1
      exact absurd h1 (by decide)
    · rw [hc] at h1
      exact absurd h1 (by decide)
    · rw [hc] at h1
      exact absurd h1 (by decide)
    · omega
    · omega

theorem takeWhile_all_append (g : Char → Bool) (u v : Str)
    (hu : ∀ c ∈ u, g c = true) (hv : ∀ c, v.head? = some c → g c = false) :
    (u ++ v).takeWhile g = u ∧ (u ++ v).dropWhile g = v := by
  induction u with
  | nil =>
    cases v with
    | nil => simp
    | cons c w =>
      have := hv c rfl
      simp [List.takeWhile_cons, List.dropWhile_cons, this]
  | cons c u ih =>
    have hc := hu c (by simp)
    have ih' := ih (fun d hd => hu d (by simp [hd]))
    simp [List.takeWhile_cons, List.dropWhile_cons, hc, ih'.1, ih'.2]

theorem repOutcomes_split (g : Char → Bool) (u v : Str)
    (hu : ∀ c ∈ u, g c = true) (hv : ∀ c, v.head? = some c → g c = false) :
    repOutcomes g true (u ++ v) =
      (List.range u.length).map
        (fun i => (u.drop (u.length - i) ++ v, ([] : List Str))) := by
  have h := takeWhile_all_append g u v hu hv
  simp only [repOutcomes, h.1, h.2, if_true]
  norm_num

theorem range_head (m : Nat) : (List.range (m + 1)).head? = some 0 := by
  rw [List.range_succ_eq_map]
  rfl

end ZW

namespace ZW

theorem tryAt_weekP1 (m : Char) (n' b : Str) (hd : ∀ c ∈ (m :: n'), isDigitC c = true)
    (hb : ∀ c, b.head? = some c → isDigitC c = false) :
    tryAt ZW.RP.weekP1 (str "week_" ++ ((m :: n') ++ b)) = some [m :: n'] := by
  have hinput : str "week_" ++ ((m :: n') ++ b) =
      str "week" ++ ('_' :: ((m :: n') ++ b)) := rfl
  have hWs : ∀ c ∈ ['_'], isWsU c = true := by decide
  have hv1 : ∀ c, ((m :: n') ++ b).head? = some c → isWsU c = false := by
    intro c hc
    simp only [List.cons_append, List.head?_cons, Option.some.injEq] at hc
    exact hc ▸ digit_not_wsU (hd m (by simp))
  have e1 : repOutcomes isWsU true ('_' :: ((m :: n') ++ b)) = [((m :: n') ++ b, [])] := by
    have h := repOutcomes_split isWsU ['_'] ((m :: n') ++ b) hWs hv1
    simpa using h
  have e2 : repOutcomes isDigitC true ((m :: n') ++ b) =
      (List.range (m :: n').length).map
        (fun i => ((m :: n').drop ((m :: n').length - i) ++ b, ([] : List Str))) :=
    repOutcomes_split isDigitC (m :: n') b hd hb
  rw [tryAt, hinput]
  simp only [ZW.RP.weekP1, runRE, runRE1, matchLitCI_self]
  simp only [List.flatMap_cons, List.flatMap_nil, List.append_nil, List.nil_append]
  rw [e1]
  simp only [List.flatMap_cons, List.flatMap_nil, List.append_nil, List.nil_append]
  rw [e2]
  simp only [List.map_map, List.length_cons, List.head?_map, range_head]
  simp only [Option.map_some', Function.comp_apply, Nat.sub_zero, Option.some.injEq]
  have hdrop : List.drop (n'.length + 1) (m :: n') = [] := List.drop_length _
  rw [hdrop]
  have harith : (m :: n' ++ b).length - ([] ++ b : Str).length = n'.length + 1 := by
    simp only [List.nil_append, List.length_append, List.length_cons]
    omega
  rw [harith]
  have htake : List.take (n'.length + 1) ((m :: n') ++ b) = m :: n' := by
    rw [show n'.length + 1 = (m :: n').length from rfl]
    exact List.take_left _ _
  rw [htake]
  simp

/-- C6 (amended): `extractWeekNumber` commits to the leftmost match of its
    first pattern `/week[_\s]+(\d+)/i`; in particular, on any input that begins
    with `week_<n>` (with the following text not starting with a digit) the
    result is exactly the digit string `<n>`, regardless of any further
    week/session/meeting-like phrases in the remainder. -/
theorem C6_theorem (n b : Str) (hn : n ≠ []) (hd : ∀ c ∈ n, isDigitC c = true)
    (hb : ∀ c, b.head? = some c → isDigitC c = false) :
    ZW.RP.extractWeekNumber (str "week_" ++ (n ++ b)) = some n := by
  obtain ⟨m, n', rfl⟩ : ∃ m n', n = m :: n' := by
    cases n with
    | nil => exact absurd rfl hn
    | cons m n' => exact ⟨m, n', rfl⟩
  have ht : tryAt ZW.RP.weekP1 ('w' :: (str "eek_" ++ (m :: (n' ++ b)))) =
      some [m :: n'] := tryAt_weekP1 m n' b hd hb
  have hs : searchRE ZW.RP.weekP1 ('w' :: (str "eek_" ++ (m :: (n' ++ b)))) =
      some [m :: n'] := by
    rw [searchRE]
    simp [ht]
  have hgoal : str "week_" ++ ((m :: n') ++ b) =
      'w' :: (str "eek_" ++ (m :: (n' ++ b))) := rfl
  rw [ZW.RP.extractWeekNumber, hgoal]
  simp [firstPatternCapture, ZW.RP.weekPatterns, search1, hs]

/-- C6 counterexample: the input contains `week_5`, yet `extractWeekNumber`
    returns `"3"`, the capture of the earlier `week 3` phrase. -/
theorem C6_counterexample :
    containsSub (str "week 3 week_5") (str "week_5") = true ∧
    ZW.RP.extractWeekNumber (str "week 3 week_5") = some (str "3") ∧
    str "3" ≠ str "5" := by decide

/-- C6 witness: `week_5` at the front wins over every later phrase. -/
theorem C6_witness :
    ZW.RP.extractWeekNumber (str "week_" ++ (str "5" ++ str " session 9 week 4")) =
      some (str "5") :=
  C6_theorem (str "5") (str " session 9 week 4") (by decide) (by decide)
    (by
      intro c hc
      simp only [show List.head? (str " session 9 week 4") = some ' ' from rfl,
        Option.some.injEq] at hc
      subst hc
      decide)

end ZW

namespace ZW

/-- C3: a topic containing `siraj` (and not the `sameeha_siraj` surname
    exception) short-circuits the fusion: coach is force-set to `Siraj` with
    confidence 1.0 and source `siraj_pattern`, normal extraction is skipped
    (the result is independent of timeline/transcript/chat evidence and of the
    student mappings, and student/week stay unset), and the enhanced
    file-name generator never appends a `_Wk<week>` component when
    `isSiraj` is set. -/
theorem C3_theorem (rec : ZW.RP.Recording) (tl : Option ZW.RP.TLDoc)
    (ta : Option ZW.RP.TranscriptAnalysis) (ca : Option ZW.RP.ChatAnalysis)
    (mp : ZW.RP.Mappings)
    (hs : containsSub (lower rec.topic) (str "siraj") = true)
    (hx : containsSub (lower rec.topic) (str "sameeha_siraj") = false) :
    (ZW.RP.processWebhookMetadata rec tl ta ca mp).meta.coach = some (str "Siraj") ∧
    (ZW.RP.processWebhookMetadata rec tl ta ca mp).meta.confCoach = 1 ∧
    (ZW.RP.processWebhookMetadata rec tl ta ca mp).meta.srcCoach =
      some (str "siraj_pattern") ∧
    (ZW.RP.processWebhookMetadata rec tl ta ca mp).meta.student = none ∧
    (ZW.RP.processWebhookMetadata rec tl ta ca mp).meta.weekNumber = none ∧
    (ZW.RP.processWebhookMetadata rec tl ta ca mp).isSiraj = true ∧
    ZW.RP.processWebhookMetadata rec tl ta ca mp =
      ZW.RP.processWebhookMetadata rec none none none [] ∧
    (∀ ft c s w d mid g iv,
      ZW.RP.generateStandardizedFileNameEnhanced ft c s (some w) d mid g true iv =
        ZW.RP.generateStandardizedFileNameEnhanced ft c s none d mid g true iv) := by
  have hsr : ZW.RP.isSirajRecording rec.topic = true := by
    simp [ZW.RP.isSirajRecording, hs, hx]
  have hpipe : ∀ tl' ta' ca' (mp' : ZW.RP.Mappings),
      ZW.RP.processWebhookMetadata rec tl' ta' ca' mp' =
        ⟨⟨some (str "Siraj"), none, none, [], 1, 0, 0, some (str "siraj_pattern"),
          none, none⟩, false, true, false⟩ := by
    intro tl' ta' ca' mp'
    rw [ZW.RP.processWebhookMetadata]
    rw [hsr]
    simp [ZW.RP.mappingsFallback, optTruthy, ZW.RP.emptyMeta, str]
  refine ⟨?_, ?_, ?_, ?_, ?_, ?_, ?_, ?_⟩
  · rw [hpipe]
  · rw [hpipe]
  · rw [hpipe]
  · rw [hpipe]
  · rw [hpipe]
  · rw [hpipe]
  · rw [hpipe, hpipe]
  · intro ft c s w d mid g iv
    rw [ZW.RP.generateStandardizedFileNameEnhanced,
      ZW.RP.generateStandardizedFileNameEnhanced]
    simp

end ZW

namespace ZW

/-- C3 witness: the theorem applied to a concrete Siraj topic. -/
theorem C3_witness :
    (ZW.RP.processWebhookMetadata ⟨str "Siraj & Andre Checkpoint", none, none, none, 0⟩
        none none none []).meta.coach = some (str "Siraj") ∧
    (ZW.RP.processWebhookMetadata ⟨str "Siraj & Andre Checkpoint", none, none, none, 0⟩
        none none none []).meta.confCoach = 1 :=
  ⟨(C3_theorem ⟨str "Siraj & Andre Checkpoint", none, none, none, 0⟩ none none none []
      (by decide) (by decide)).1,
   (C3_theorem ⟨str "Siraj & Andre Checkpoint", none, none, none, 0⟩ none none none []
      (by decide) (by decide)).2.1⟩

end ZW

namespace ZW.RP

open ZW

/-- `transcriptSpeakerStep` touches only coach/student fields. -/
theorem transcriptSpeakerStep_week (m : Meta) (sp : Speaker) :
    (transcriptSpeakerStep m sp).weekNumber = m.weekNumber ∧
    (transcriptSpeakerStep m sp).confWeek = m.confWeek ∧
    (transcriptSpeakerStep m sp).srcWeek = m.srcWeek ∧
    (transcriptSpeakerStep m sp).participants = m.participants := by
  simp only [transcriptSpeakerStep]
  split
  · split
    · split <;> simp
    · simp
  · split
    · split
      · simp
      · split <;> simp
    · simp

theorem foldl_transcript_week (sps : List Speaker) (m : Meta) :
    (sps.foldl transcriptSpeakerStep m).weekNumber = m.weekNumber ∧
    (sps.foldl transcriptSpeakerStep m).confWeek = m.confWeek ∧
    (sps.foldl transcriptSpeakerStep m).srcWeek = m.srcWeek ∧
    (sps.foldl transcriptSpeakerStep m).participants = m.participants := by
  induction sps generalizing m with
  | nil => simp
  | cons sp t ih =>
    have h := transcriptSpeakerStep_week m sp
    have h2 := ih (transcriptSpeakerStep m sp)
    simp only [List.foldl_cons]
    exact ⟨h2.1.trans h.1, h2.2.1.trans h.2.1, h2.2.2.1.trans h.2.2.1,
      h2.2.2.2.trans h.2.2.2⟩

theorem mergeTranscript_week (ta : Option TranscriptAnalysis) (m : Meta) :
    (mergeTranscript ta m).weekNumber = m.weekNumber ∧
    (mergeTranscript ta m).confWeek = m.confWeek ∧
    (mergeTranscript ta m).srcWeek = m.srcWeek ∧
    (mergeTranscript ta m).participants = m.participants := by
  cases ta with
  | none => simp [mergeTranscript]
  | some td =>
    simp only [mergeTranscript]
    split
    · exact foldl_transcript_week td.speakers m
    · simp

/-- `chatParticipantStep` touches only coach fields. -/
theorem chatParticipantStep_week (m : Meta) (p : ChatParticipant) :
    (chatParticipantStep m p).weekNumber = m.weekNumber ∧
    (chatParticipantStep m p).confWeek = m.confWeek ∧
    (chatParticipantStep m p).srcWeek = m.srcWeek ∧
    (chatParticipantStep m p).participants = m.participants ∧
    (chatParticipantStep m p).student = m.student ∧
    (chatParticipantStep m p).confStudent = m.confStudent ∧
    (chatParticipantStep m p).srcStudent = m.srcStudent := by
  simp only [chatParticipantStep]
  rcases hf : List.find? (fun cn => containsSub (lower p.name) cn) knownCoachNames with
    _ | cn <;> simp only [hf] <;> split <;> (try split) <;> (try split) <;> simp

theorem foldl_chat_week (ps : List ChatParticipant) (m : Meta) :
    ((ps.foldl chatParticipantStep m).weekNumber = m.weekNumber ∧
     (ps.foldl chatParticipantStep m).confWeek = m.confWeek ∧
     (ps.foldl chatParticipantStep m).srcWeek = m.srcWeek ∧
     (ps.foldl chatParticipantStep m).participants = m.participants) ∧
    ((ps.foldl chatParticipantStep m).student = m.student ∧
     (ps.foldl chatParticipantStep m).confStudent = m.confStudent ∧
     (ps.foldl chatParticipantStep m).srcStudent = m.srcStudent) := by
  induction ps generalizing m with
  | nil => simp
  | cons p t ih =>
    have h := chatParticipantStep_week m p
    have h2 := ih (chatParticipantStep m p)
    simp only [List.foldl_cons]
    refine ⟨⟨h2.1.1.trans h.1, h2.1.2.1.trans h.2.1, h2.1.2.2.1.trans h.2.2.1,
      h2.1.2.2.2.trans h.2.2.2.1⟩,
      ⟨h2.2.1.trans h.2.2.2.2.1, h2.2.2.1.trans h.2.2.2.2.2.1,
       h2.2.2.2.trans h.2.2.2.2.2.2⟩⟩

theorem mergeChat_week (ca : Option ChatAnalysis) (m : Meta) :
    (mergeChat ca m).weekNumber = m.weekNumber ∧
    (mergeChat ca m).confWeek = m.confWeek ∧
    (mergeChat ca m).srcWeek = m.srcWeek ∧
    (mergeChat ca m).participants = m.participants := by
  cases ca with
  | none => simp [mergeChat]
  | some cd =>
    simp only [mergeChat]
    split
    · exact (foldl_chat_week cd.participants m).1
    · simp

theorem mergeTimelineBasic_week (tl : Option BasicResult) (m : Meta) :
    (mergeTimelineBasic tl m).weekNumber = m.weekNumber ∧
    (mergeTimelineBasic tl m).confWeek = m.confWeek ∧
    (mergeTimelineBasic tl m).srcWeek = m.srcWeek := by
  cases tl with
  | none => simp [mergeTimelineBasic]
  | some td =>
    simp only [mergeTimelineBasic]
    split <;> (split <;> simp)

theorem companyNameFilter_week (m : Meta) :
    (companyNameFilter m).weekNumber = m.weekNumber ∧
    (companyNameFilter m).confWeek = m.confWeek ∧
    (companyNameFilter m).srcWeek = m.srcWeek := by
  simp only [companyNameFilter]
  split <;> (split <;> simp)

theorem mergeTimelineEnhanced_week (tp : Option EnhResult) (m : Meta) :
    (mergeTimelineEnhanced tp m).weekNumber = m.weekNumber ∧
    (mergeTimelineEnhanced tp m).confWeek = m.confWeek ∧
    (mergeTimelineEnhanced tp m).srcWeek = m.srcWeek := by
  cases tp with
  | none => simp [mergeTimelineEnhanced]
  | some t =>
    simp only [mergeTimelineEnhanced]
    split
    · simp
    · split <;> (split <;> simp)

/-- The week-only stages do not touch coach/student fields. -/
theorem stageWeekEnhanced_cs (rec : Recording) (m : Meta) :
    (stageWeekEnhanced rec m).coach = m.coach ∧
    (stageWeekEnhanced rec m).student = m.student ∧
    (stageWeekEnhanced rec m).confCoach = m.confCoach ∧
    (stageWeekEnhanced rec m).confStudent = m.confStudent ∧
    (stageWeekEnhanced rec m).srcCoach = m.srcCoach ∧
    (stageWeekEnhanced rec m).srcStudent = m.srcStudent := by
  simp only [stageWeekEnhanced]
  split
  · split <;> simp
  · simp

theorem stageWeekCalc_cs (rec : Recording) (mp : Mappings) (m : Meta) :
    (stageWeekCalc rec mp m).coach = m.coach ∧
    (stageWeekCalc rec mp m).student = m.student ∧
    (stageWeekCalc rec mp m).confCoach = m.confCoach ∧
    (stageWeekCalc rec mp m).confStudent = m.confStudent ∧
    (stageWeekCalc rec mp m).srcCoach = m.srcCoach ∧
    (stageWeekCalc rec mp m).srcStudent = m.srcStudent := by
  simp only [stageWeekCalc]
  split
  · split <;> simp
  · simp

end ZW.RP

namespace ZW.RP

/-- C9: when the evidence determines neither coach nor student (no siraj
    pattern, topic/host extraction both fail, no timeline/transcript/chat, no
    directory match), the fusion — a total function in this model — still
    produces a record, with coach and student confidence both 0, and the
    record is flagged for manual review. -/
theorem C9_theorem (rec : Recording) (mp : Mappings)
    (hs : isSirajRecording rec.topic = false)
    (hc : extractCoachFromRecordingInfo rec.topic rec.host_email rec.participants = none)
    (hst : extractStudentFromRecordingInfo rec.topic none = none)
    (hid : identifyStudent mp rec = none) :
    (processWebhookMetadata rec none none none mp).meta.confCoach = 0 ∧
    (processWebhookMetadata rec none none none mp).meta.confStudent = 0 ∧
    (processWebhookMetadata rec none none none mp).flagged = true := by
  have h0 : (stageTopic rec).coach = none ∧ (stageTopic rec).confCoach = 0 ∧
      (stageTopic rec).student = none ∧ (stageTopic rec).confStudent = 0 := by
    simp [stageTopic, hc, hst, optTruthy]
  have e1 := stageWeekEnhanced_cs rec (stageTopic rec)
  have e2 := stageWeekCalc_cs rec mp (stageWeekEnhanced rec (stageTopic rec))
  have h1 : (extractMetadataFromAllSources rec none none none mp).coach = none ∧
      (extractMetadataFromAllSources rec none none none mp).confCoach = 0 ∧
      (extractMetadataFromAllSources rec none none none mp).student = none ∧
      (extractMetadataFromAllSources rec none none none mp).confStudent = 0 := by
    refine ⟨?_, ?_, ?_, ?_⟩
    · exact (e2.1.trans e1.1).trans h0.1
    · exact (e2.2.2.1.trans e1.2.2.1).trans h0.2.1
    · exact (e2.2.1.trans e1.2.1).trans h0.2.2.1
    · exact (e2.2.2.2.1.trans e1.2.2.2.1).trans h0.2.2.2
  set m1 := extractMetadataFromAllSources rec none none none mp with hm1
  have h2 : companyNameFilter m1 = m1 := by
    simp [companyNameFilter, h1.1, h1.2.2.1, optTruthy]
  simp only [processWebhookMetadata, hs]
  simp only [Bool.false_eq_true, if_false, Option.map_none', ← hm1, h2,
    mergeTimelineEnhanced]
  simp only [mappingsFallback, h1.2.2.1, hid, optTruthy, Bool.not_false,
    Bool.and_true, Bool.and_false, Bool.true_and, Bool.not_true]
  simp only [if_true, h1.1, h1.2.2.1, Bool.not_false, if_true]
  split <;>
    exact ⟨by simp [h1.2.1], by simp [h1.2.2.2],
      by simp [h1.2.1, h1.2.2.2, decide_eq_true_eq]; norm_num⟩

/-- C9 witness: the "Weekly Meeting 123" scenario of the specification. -/
theorem C9_witness :
    (processWebhookMetadata
        ⟨str "Weekly Meeting 123", some (str "host@gmail.com"), none, none, 0⟩
        none none none []).meta.confCoach = 0 ∧
    (processWebhookMetadata
        ⟨str "Weekly Meeting 123", some (str "host@gmail.com"), none, none, 0⟩
        none none none []).meta.confStudent = 0 ∧
    (processWebhookMetadata
        ⟨str "Weekly Meeting 123", some (str "host@gmail.com"), none, none, 0⟩
        none none none []).flagged = true :=
  C9_theorem ⟨str "Weekly Meeting 123", some (str "host@gmail.com"), none, none, 0⟩ []
    (by decide) (by decide) (by decide) (by decide)

end ZW.RP

namespace ZW

theorem mem_of_contains_true {α : Type} [BEq α] [LawfulBEq α] {c : α} {s : List α}
    (h : s.contains c = true) : c ∈ s := by
  induction s with
  | nil => simp [List.contains_cons] at h
  | cons a t ih =>
    simp only [List.contains_cons, Bool.or_eq_true] at h
    rcases h with h | h
    · simp only [beq_iff_eq] at h
      simp [h]
    · exact List.mem_cons_of_mem _ (ih h)

theorem allDigits_false_of_hyphen {l : Str} (h : l.contains '-' = true) :
    allDigits l = false := by
  have hm := mem_of_contains_true h
  simp only [allDigits, Bool.and_eq_false_iff]
  right
  rw [List.all_eq_false]
  exact ⟨'-', hm, by decide⟩

theorem not_contains_underscore_of_allDigits {d : Str} (h : allDigits d = true) :
    d.contains '_' = false := by
  simp only [allDigits, Bool.and_eq_true, List.all_eq_true] at h
  by_contra hcon
  have hx : d.contains '_' = true := by
    cases hy : d.contains '_'
    · exact absurd hy hcon
    · rfl
  have hm := mem_of_contains_true hx
  have := h.2 '_' hm
  exact absurd this (by decide)

theorem lraCapitalize_ne_nil {c : Str} (hne : c ≠ []) (hch : c.contains '-' = false) :
    ZW.LRA.capitalizeWord c ≠ [] := by
  rw [ZW.LRA.capitalizeWord.eq_def,
    if_neg (show ¬(List.contains c '-' = true) by
      simp [not_mem_of_contains_false hch])]
  cases c with
  | nil => exact absurd rfl hne
  | cons a t => simp

set_option maxHeartbeats 3000000 in
/-- C5: a folder name `<Coach>_<First>_<Last>-<suffix>_<digits>` with `<Coach>`
    in the coach dictionary yields coach `Capitalize(<Coach>)` at confidence
    0.85 and student `First Last-Suffix` (each name capitalized, the
    hyphenated surname per segment) at confidence 0.85 with source
    `folder_name_pattern_hyphenated`. -/
theorem C5_theorem (c f l d : Str)
    (hc : ZW.LRA.knownCoachNames.contains (lower c) = true)
    (hcu : c.contains '_' = false) (hch : c.contains '-' = false)
    (hfu : f.contains '_' = false) (hfh : f.contains '-' = false)
    (hfd : allDigits f = false)
    (hlu : l.contains '_' = false) (hlh : l.contains '-' = true)
    (hdd : allDigits d = true) :
    ((ZW.LRA.extractFromFolderName (c ++ '_' :: (f ++ '_' :: (l ++ '_' :: d)))
        ZW.LRA.initialResult).coach = some (ZW.LRA.capitalizeWord c)) ∧
    ((ZW.LRA.extractFromFolderName (c ++ '_' :: (f ++ '_' :: (l ++ '_' :: d)))
        ZW.LRA.initialResult).confCoach = 0.85) ∧
    ((ZW.LRA.extractFromFolderName (c ++ '_' :: (f ++ '_' :: (l ++ '_' :: d)))
        ZW.LRA.initialResult).student =
      some (ZW.LRA.capitalizeWord f ++ ' ' :: ZW.LRA.capitalizeWord l)) ∧
    ((ZW.LRA.extractFromFolderName (c ++ '_' :: (f ++ '_' :: (l ++ '_' :: d)))
        ZW.LRA.initialResult).confStudent = 0.85) ∧
    ((ZW.LRA.extractFromFolderName (c ++ '_' :: (f ++ '_' :: (l ++ '_' :: d)))
        ZW.LRA.initialResult).srcStudent =
      some (str "folder_name_pattern_hyphenated")) := by
  have hdu := not_contains_underscore_of_allDigits hdd
  have hld : allDigits l = false := allDigits_false_of_hyphen hlh
  have hsplit : splitChar '_' (c ++ '_' :: (f ++ '_' :: (l ++ '_' :: d))) = [c, f, l, d] := by
    rw [splitChar_append _ _ _ hcu, splitChar_append _ _ _ hfu,
      splitChar_append _ _ _ hlu, splitChar_no_sep _ _ hdu]
  have hcne : c ≠ [] := by
    intro he
    subst he
    exact absurd hc (by decide)
  have hcap : optTruthy (some (ZW.LRA.capitalizeWord c)) = true := by
    simp [optTruthy, lraCapitalize_ne_nil hcne hch]
  have hf' : ¬ ('-' ∈ f) := not_mem_of_contains_false hfh
  have hl' : ('-' ∈ l) := mem_of_contains_true hlh
  have hcm : lower c ∈ ZW.LRA.knownCoachNames := mem_of_contains_true hc
  simp only [ZW.LRA.extractFromFolderName, hsplit, ZW.LRA.initialResult]
  rcases hw : firstPatternCapture ZW.RP.weekPatterns
      (c ++ '_' :: (f ++ '_' :: (l ++ '_' :: d))) with _ | w <;>
    simp [hw, Bool.false_eq_true, List.headD_cons, List.filter_cons, hfd, hld, hdd,
      hc, hcm, hf', hl', List.findIdx_cons, hfh, hlh, hcap, optTruthy,
      lraCapitalize_ne_nil hcne hch]

/-- C5 witness: `jenny_Mani_Smith-jones_123`. -/
theorem C5_witness :
    ((ZW.LRA.extractFromFolderName
        (str "jenny" ++ '_' :: (str "Mani" ++ '_' :: (str "Smith-jones" ++ '_' :: str "123")))
        ZW.LRA.initialResult).coach = some (ZW.LRA.capitalizeWord (str "jenny"))) ∧
    ((ZW.LRA.extractFromFolderName
        (str "jenny" ++ '_' :: (str "Mani" ++ '_' :: (str "Smith-jones" ++ '_' :: str "123")))
        ZW.LRA.initialResult).student =
      some (ZW.LRA.capitalizeWord (str "Mani") ++ ' ' ::
        ZW.LRA.capitalizeWord (str "Smith-jones"))) :=
  ⟨(C5_theorem (str "jenny") (str "Mani") (str "Smith-jones") (str "123")
      (by decide) (by decide) (by decide) (by decide) (by decide) (by decide)
      (by decide) (by decide) (by decide)).1,
   (C5_theorem (str "jenny") (str "Mani") (str "Smith-jones") (str "123")
      (by decide) (by decide) (by decide) (by decide) (by decide) (by decide)
      (by decide) (by decide) (by decide)).2.2.1⟩

end ZW

namespace ZW.RP

theorem stepUserEnh_skip (st : List (Str × PUser) × Bool × Bool) (u : TLUser)
    (h : enhCollected u = false) : stepUserEnh st u = st := by
  obtain ⟨acc, fl1, fl2⟩ := st
  simp only [stepUserEnh]
  cases hun : u.username with
  | none => rfl
  | some un =>
    simp only [enhCollected, hun] at h
    by_cases hne : un = []
    · simp [hne]
    · simp only [hne, decide_not, Bool.and_eq_false_iff] at h
      rcases h with h | h
      · simp [hne] at h
      · simp only [Bool.not_eq_false'] at h
        simp [hne, h]

theorem stepUserEnh_flags (st : List (Str × PUser) × Bool × Bool) (u : TLUser)
    (hu : enhCollected u = true → u.email_address.getD [] = str "contact@ivymentors.co")
    (h1 : st.2.1 = true) (h2 : st.2.2 = false) :
    (stepUserEnh st u).2.1 = true ∧ (stepUserEnh st u).2.2 = false := by
  obtain ⟨acc, fl1, fl2⟩ := st
  simp only at h1 h2
  subst h1
  subst h2
  simp only [stepUserEnh]
  cases hun : u.username with
  | none => simp
  | some un =>
    by_cases hne : un = []
    · simp [hne]
    · by_cases hskip : (allDigits un || decide (lower un = str "ivylevel") ||
          isCompanyName un) = true
      · simp [hne, hskip]
      · have hemail : u.email_address.getD [] = str "contact@ivymentors.co" := by
          apply hu
          simp [enhCollected, hun, hne, hskip]
        rw [Bool.not_eq_true] at hskip
        simp [hne, hskip, hemail]
        decide


end ZW.RP

namespace ZW.RP

theorem foldUsers_flags (us : List TLUser)
    (hu : ∀ u ∈ us, enhCollected u = true →
      u.email_address.getD [] = str "contact@ivymentors.co") :
    ∀ st : List (Str × PUser) × Bool × Bool, st.2.1 = true → st.2.2 = false →
      (us.foldl stepUserEnh st).2.1 = true ∧ (us.foldl stepUserEnh st).2.2 = false := by
  induction us with
  | nil => exact fun st h1 h2 => ⟨h1, h2⟩
  | cons u t ih =>
    intro st h1 h2
    have hstep := stepUserEnh_flags st u (hu u (by simp)) h1 h2
    simp only [List.foldl_cons]
    exact ih (fun v hv => hu v (by simp [hv])) (stepUserEnh st u) hstep.1 hstep.2

theorem collectEnh_flags (evs : List TLEvent)
    (hall : ∀ ev ∈ evs, ∀ u ∈ ev.users.getD [], enhCollected u = true →
      u.email_address.getD [] = str "contact@ivymentors.co") :
    (collectEnh evs).2.1 = true ∧ (collectEnh evs).2.2 = false := by
  suffices h : ∀ l : List TLEvent,
      (∀ ev ∈ l, ∀ u ∈ ev.users.getD [], enhCollected u = true →
        u.email_address.getD [] = str "contact@ivymentors.co") →
      ∀ st : List (Str × PUser) × Bool × Bool, st.2.1 = true → st.2.2 = false →
      (l.foldl (fun st ev =>
        match ev.users with
        | some us => us.foldl stepUserEnh st
        | none => st) st).2.1 = true ∧
      (l.foldl (fun st ev =>
        match ev.users with
        | some us => us.foldl stepUserEnh st
        | none => st) st).2.2 = false from
    h evs hall ([], true, false) rfl rfl
  intro l
  induction l with
  | nil => exact fun _ st h1 h2 => ⟨h1, h2⟩
  | cons ev t ih =>
    intro hl st h1 h2
    simp only [List.foldl_cons]
    have htail : ∀ ev ∈ t, ∀ u ∈ ev.users.getD [], enhCollected u = true →
        u.email_address.getD [] = str "contact@ivymentors.co" :=
      fun e he => hl e (List.mem_cons_of_mem _ he)
    cases hus : ev.users with
    | none => exact ih htail st h1 h2
    | some us =>
      have hstep := foldUsers_flags us
        (fun u hu => hl ev (by simp) u (by simpa [hus] using hu)) st h1 h2
      exact ih htail (us.foldl stepUserEnh st) hstep.1 hstep.2

theorem parseEnh_ivylevel (doc : TLDoc) (evs : List TLEvent)
    (hdoc : doc.timeline = some evs)
    (hall : ∀ ev ∈ evs, ∀ u ∈ ev.users.getD [], enhCollected u = true →
      u.email_address.getD [] = str "contact@ivymentors.co") :
    (parseTimelineForParticipantsEnhanced doc).isIvylevel = true ∧
    (parseTimelineForParticipantsEnhanced doc).coach = some (str "Ivylevel") ∧
    (parseTimelineForParticipantsEnhanced doc).confCoach = 0.9 := by
  have hf := collectEnh_flags evs hall
  have hniv : str "Ivylevel" ≠ [] := by decide
  simp only [parseTimelineForParticipantsEnhanced, hdoc, hf.1, hf.2]
  simp [optTruthy, hniv]

theorem mergeEnh_ivylevel (t : EnhResult) (ht : t.isIvylevel = true) (m : Meta) :
    (mergeTimelineEnhanced (some t) m).coach = some (str "Ivylevel") ∧
    (mergeTimelineEnhanced (some t) m).confCoach = 0.9 ∧
    (mergeTimelineEnhanced (some t) m).srcCoach = some (str "timeline_ivylevel") := by
  simp [mergeTimelineEnhanced, ht]

theorem foldUsers_skip (us : List TLUser) (hu : ∀ u ∈ us, enhCollected u = false)
    (st : List (Str × PUser) × Bool × Bool) : us.foldl stepUserEnh st = st := by
  induction us generalizing st with
  | nil => rfl
  | cons u t ih =>
    simp only [List.foldl_cons, stepUserEnh_skip st u (hu u (by simp))]
    exact ih (fun v hv => hu v (by simp [hv])) st

theorem collectEnh_empty (evs : List TLEvent)
    (hall : ∀ ev ∈ evs, ∀ u ∈ ev.users.getD [], enhCollected u = false) :
    collectEnh evs = ([], true, false) := by
  suffices h : ∀ l : List TLEvent,
      (∀ ev ∈ l, ∀ u ∈ ev.users.getD [], enhCollected u = false) →
      ∀ st : List (Str × PUser) × Bool × Bool,
      l.foldl (fun st ev =>
        match ev.users with
        | some us => us.foldl stepUserEnh st
        | none => st) st = st from
    h evs hall ([], true, false)
  intro l
  induction l with
  | nil => exact fun _ _ => rfl
  | cons ev t ih =>
    intro hl st
    simp only [List.foldl_cons]
    have hstep : (match ev.users with
        | some us => us.foldl stepUserEnh st
        | none => st) = st := by
      cases hus : ev.users with
      | none => rfl
      | some us =>
        exact foldUsers_skip us (fun u hu => hl ev (by simp) u (by simpa [hus] using hu)) st
    rw [hstep]
    exact ih (fun e he => hl e (by simp [he])) st

theorem parseEnh_empty (doc : TLDoc) (evs : List TLEvent)
    (hdoc : doc.timeline = some evs)
    (hall : ∀ ev ∈ evs, ∀ u ∈ ev.users.getD [], enhCollected u = false) :
    parseTimelineForParticipantsEnhanced doc
      = ⟨some (str "Ivylevel"), none, [], 0.9, 0, true⟩ := by
  simp only [parseTimelineForParticipantsEnhanced, hdoc, collectEnh_empty evs hall]
  simp [optTruthy]

end ZW.RP

/-- C2: a timeline whose collected participants all carry the exact shared
    address contact@ivymentors.co (in particular, whose only collected
    participant does) makes the enhanced parser report isIvylevel with coach
    "Ivylevel" at confidence 0.9, and the fusion step then force-sets
    coach := "Ivylevel", confidence 0.9, source timeline_ivylevel over any
    previously extracted coach, regardless of the prior confidence. -/
theorem C2_theorem (doc : ZW.RP.TLDoc) (evs : List ZW.RP.TLEvent)
    (hdoc : doc.timeline = some evs)
    (hall : ∀ ev ∈ evs, ∀ u ∈ ev.users.getD [], ZW.RP.enhCollected u = true →
      u.email_address.getD [] = ZW.str "contact@ivymentors.co")
    (hone : (ZW.RP.collectEnh evs).1.length = 1) (m : ZW.RP.Meta) :
    (ZW.RP.parseTimelineForParticipantsEnhanced doc).isIvylevel = true ∧
    (ZW.RP.parseTimelineForParticipantsEnhanced doc).coach = some (ZW.str "Ivylevel") ∧
    (ZW.RP.parseTimelineForParticipantsEnhanced doc).confCoach = 0.9 ∧
    (ZW.RP.mergeTimelineEnhanced
        (some (ZW.RP.parseTimelineForParticipantsEnhanced doc)) m).coach
      = some (ZW.str "Ivylevel") ∧
    (ZW.RP.mergeTimelineEnhanced
        (some (ZW.RP.parseTimelineForParticipantsEnhanced doc)) m).confCoach = 0.9 ∧
    (ZW.RP.mergeTimelineEnhanced
        (some (ZW.RP.parseTimelineForParticipantsEnhanced doc)) m).srcCoach
      = some (ZW.str "timeline_ivylevel") := by
  have hp := ZW.RP.parseEnh_ivylevel doc evs hdoc hall
  have hm := ZW.RP.mergeEnh_ivylevel _ hp.1 m
  exact ⟨hp.1, hp.2.1, hp.2.2, hm.1, hm.2.1, hm.2.2⟩

/-- Witness for C2 at a concrete one-event, one-user timeline document and a
    prior metadata record whose coach "Jenny" has confidence 0.95. -/
theorem C2_witness :
    ZW.RP.doc2.timeline
      = some [⟨some [⟨some (ZW.str "contact"), some (ZW.str "contact@ivymentors.co"),
          none, none⟩]⟩] ∧
    ZW.RP.metaJenny.confCoach = 0.95 ∧
    ((ZW.RP.parseTimelineForParticipantsEnhanced ZW.RP.doc2).isIvylevel = true ∧
     (ZW.RP.parseTimelineForParticipantsEnhanced ZW.RP.doc2).coach
        = some (ZW.str "Ivylevel") ∧
     (ZW.RP.parseTimelineForParticipantsEnhanced ZW.RP.doc2).confCoach = 0.9 ∧
     (ZW.RP.mergeTimelineEnhanced
         (some (ZW.RP.parseTimelineForParticipantsEnhanced ZW.RP.doc2))
         ZW.RP.metaJenny).coach = some (ZW.str "Ivylevel") ∧
     (ZW.RP.mergeTimelineEnhanced
         (some (ZW.RP.parseTimelineForParticipantsEnhanced ZW.RP.doc2))
         ZW.RP.metaJenny).confCoach = 0.9 ∧
     (ZW.RP.mergeTimelineEnhanced
         (some (ZW.RP.parseTimelineForParticipantsEnhanced ZW.RP.doc2))
         ZW.RP.metaJenny).srcCoach = some (ZW.str "timeline_ivylevel")) :=
  ⟨by decide, rfl,
   C2_theorem ZW.RP.doc2 _ rfl (by decide) (by decide) ZW.RP.metaJenny⟩

/-- C10: a timeline document that is present but in which no user occurrence
    passes the enhanced parser's collection guards (usernames absent, empty,
    purely numeric, "ivylevel" case-insensitively, or company names) makes
    the parser report isIvylevel = true with coach "Ivylevel" at confidence
    0.9 and an empty participants list, so the fusion step force-sets the
    coach to "Ivylevel" with no participant evidence at all. -/
theorem C10_theorem (doc : ZW.RP.TLDoc) (evs : List ZW.RP.TLEvent)
    (hdoc : doc.timeline = some evs)
    (hall : ∀ ev ∈ evs, ∀ u ∈ ev.users.getD [], ZW.RP.enhCollected u = false)
    (m : ZW.RP.Meta) :
    ZW.RP.parseTimelineForParticipantsEnhanced doc
      = ⟨some (ZW.str "Ivylevel"), none, [], 0.9, 0, true⟩ ∧
    (ZW.RP.mergeTimelineEnhanced
        (some (ZW.RP.parseTimelineForParticipantsEnhanced doc)) m).coach
      = some (ZW.str "Ivylevel") ∧
    (ZW.RP.mergeTimelineEnhanced
        (some (ZW.RP.parseTimelineForParticipantsEnhanced doc)) m).confCoach = 0.9 ∧
    (ZW.RP.mergeTimelineEnhanced
        (some (ZW.RP.parseTimelineForParticipantsEnhanced doc)) m).srcCoach
      = some (ZW.str "timeline_ivylevel") := by
  have hp := ZW.RP.parseEnh_empty doc evs hdoc hall
  have hiv : (ZW.RP.parseTimelineForParticipantsEnhanced doc).isIvylevel = true := by
    rw [hp]
  have hm := ZW.RP.mergeEnh_ivylevel _ hiv m
  exact ⟨hp, hm.1, hm.2.1, hm.2.2⟩

/-- Witness for C10 at a concrete two-event timeline whose users are a purely
    numeric name, the name "IvyLevel" itself, and a company name. -/
theorem C10_witness :
    (∀ ev ∈ (ZW.RP.doc10.timeline.getD []), ∀ u ∈ ev.users.getD [],
      ZW.RP.enhCollected u = false) ∧
    (ZW.RP.parseTimelineForParticipantsEnhanced ZW.RP.doc10
      = ⟨some (ZW.str "Ivylevel"), none, [], 0.9, 0, true⟩ ∧
     (ZW.RP.mergeTimelineEnhanced
         (some (ZW.RP.parseTimelineForParticipantsEnhanced ZW.RP.doc10))
         ZW.RP.emptyMeta).coach = some (ZW.str "Ivylevel") ∧
     (ZW.RP.mergeTimelineEnhanced
         (some (ZW.RP.parseTimelineForParticipantsEnhanced ZW.RP.doc10))
         ZW.RP.emptyMeta).confCoach = 0.9 ∧
     (ZW.RP.mergeTimelineEnhanced
         (some (ZW.RP.parseTimelineForParticipantsEnhanced ZW.RP.doc10))
         ZW.RP.emptyMeta).srcCoach = some (ZW.str "timeline_ivylevel")) :=
  ⟨by decide, C10_theorem ZW.RP.doc10 _ rfl (by decide) ZW.RP.emptyMeta⟩

namespace ZW.RP

theorem coachMono_of_eq {m m' : Meta} (hc : m'.coach = m.coach)
    (hf : m'.confCoach = m.confCoach) : CoachMono m m' := by
  intro _
  exact ⟨le_of_eq hf.symm, fun hne => absurd hc hne⟩

theorem studentMono_of_eq {m m' : Meta} (hc : m'.student = m.student)
    (hf : m'.confStudent = m.confStudent) : StudentMono m m' := by
  intro _
  exact ⟨le_of_eq hf.symm, fun hne => absurd hc hne⟩

theorem mergeTimelineBasic_mono (tl : Option BasicResult) :
    MonoStep (mergeTimelineBasic tl) := by
  intro m
  cases tl with
  | none => exact ⟨coachMono_of_eq rfl rfl, studentMono_of_eq rfl rfl⟩
  | some td =>
    simp only [mergeTimelineBasic]
    constructor
    · intro ha
      split
      · rename_i hcond
        simp only [ha, Bool.not_true, Bool.false_or, Bool.and_eq_true,
          decide_eq_true_eq] at hcond
        split
        · exact ⟨le_of_lt hcond.2, fun _ => hcond.2⟩
        · exact ⟨le_of_lt hcond.2, fun _ => hcond.2⟩
      · split
        · exact ⟨le_refl _, fun hne => absurd rfl hne⟩
        · exact ⟨le_refl _, fun hne => absurd rfl hne⟩
    · intro ha
      split
      · rename_i hcond
        split
        · rename_i hscond
          simp only [ha, Bool.not_true, Bool.false_or, Bool.and_eq_true,
            decide_eq_true_eq] at hscond
          exact ⟨le_of_lt hscond.2, fun _ => hscond.2⟩
        · exact ⟨le_refl _, fun hne => absurd rfl hne⟩
      · split
        · rename_i hscond
          simp only [ha, Bool.not_true, Bool.false_or, Bool.and_eq_true,
            decide_eq_true_eq] at hscond
          exact ⟨le_of_lt hscond.2, fun _ => hscond.2⟩
        · exact ⟨le_refl _, fun hne => absurd rfl hne⟩


theorem mergeTimelineEnhanced_mono (tp : Option EnhResult)
    (hiv : ∀ t, tp = some t → t.isIvylevel = false) :
    MonoStep (mergeTimelineEnhanced tp) := by
  intro m
  cases tp with
  | none => exact ⟨coachMono_of_eq rfl rfl, studentMono_of_eq rfl rfl⟩
  | some t =>
    have ht : t.isIvylevel = false := hiv t rfl
    simp only [mergeTimelineEnhanced, ht, Bool.false_eq_true, if_false]
    constructor
    · intro ha
      split
      · rename_i hcond
        simp only [ha, Bool.not_true, Bool.false_or, Bool.and_eq_true,
          decide_eq_true_eq] at hcond
        split
        · exact ⟨le_of_lt hcond.2, fun _ => hcond.2⟩
        · exact ⟨le_of_lt hcond.2, fun _ => hcond.2⟩
      · split
        · exact ⟨le_refl _, fun hne => absurd rfl hne⟩
        · exact ⟨le_refl _, fun hne => absurd rfl hne⟩
    · intro ha
      split
      · rename_i hcond
        split
        · rename_i hscond
          simp only [ha, Bool.not_true, Bool.false_or, Bool.and_eq_true,
            decide_eq_true_eq] at hscond
          exact ⟨le_of_lt hscond.2, fun _ => hscond.2⟩
        · exact ⟨le_refl _, fun hne => absurd rfl hne⟩
      · split
        · rename_i hscond
          simp only [ha, Bool.not_true, Bool.false_or, Bool.and_eq_true,
            decide_eq_true_eq] at hscond
          exact ⟨le_of_lt hscond.2, fun _ => hscond.2⟩
        · exact ⟨le_refl _, fun hne => absurd rfl hne⟩

theorem stageWeekEnhanced_mono (rec : Recording) :
    MonoStep (stageWeekEnhanced rec) := by
  intro m
  have h := stageWeekEnhanced_cs rec m
  exact ⟨coachMono_of_eq h.1 h.2.2.1, studentMono_of_eq h.2.1 h.2.2.2.1⟩

theorem stageWeekCalc_mono (rec : Recording) (mp : Mappings) :
    MonoStep (stageWeekCalc rec mp) := by
  intro m
  have h := stageWeekCalc_cs rec mp m
  exact ⟨coachMono_of_eq h.1 h.2.2.1, studentMono_of_eq h.2.1 h.2.2.2.1⟩

theorem mappingsFallback_mono (rec : Recording) (mp : Mappings) (isSiraj : Bool) :
    MonoStep (mappingsFallback rec mp isSiraj) := by
  intro m
  simp only [mappingsFallback]
  constructor
  · intro ha
    split
    · split
      · split
        · simp only [ha, Bool.not_true, Bool.false_eq_true, if_false]
          split
          · exact ⟨le_refl _, fun hne => absurd rfl hne⟩
          · exact ⟨le_refl _, fun hne => absurd rfl hne⟩
        · exact ⟨le_refl _, fun hne => absurd rfl hne⟩
      · exact ⟨le_refl _, fun hne => absurd rfl hne⟩
    · exact ⟨le_refl _, fun hne => absurd rfl hne⟩
  · intro ha
    split
    · rename_i hcond
      rw [ha] at hcond
      simp at hcond
    · exact ⟨le_refl _, fun hne => absurd rfl hne⟩


theorem transcriptSpeakerStep_coach_inv (m0 m : Meta) (sp : Speaker)
    (ha : optTruthy m0.coach = true)
    (h : (m.coach = m0.coach ∧ m.confCoach = m0.confCoach) ∨
         (m.confCoach = 0.85 ∧ m0.confCoach < 0.85)) :
    ((transcriptSpeakerStep m sp).coach = m0.coach ∧
      (transcriptSpeakerStep m sp).confCoach = m0.confCoach) ∨
    ((transcriptSpeakerStep m sp).confCoach = 0.85 ∧ m0.confCoach < 0.85) := by
  simp only [transcriptSpeakerStep]
  split
  · split
    · split
      · rename_i hcond
        right
        refine ⟨rfl, ?_⟩
        rcases h with ⟨hc, hf⟩ | ⟨hf, hlt⟩
        · simp only [hc, ha, Bool.not_true, Bool.false_or, decide_eq_true_eq,
            hf] at hcond
          exact hcond
        · exact hlt
      · exact h
    · exact h
  · split
    · split
      · exact h
      · split
        · exact h
        · exact h
    · exact h

theorem transcriptSpeakerStep_student_inv (m0 m : Meta) (sp : Speaker)
    (ha : optTruthy m0.student = true)
    (h : (m.student = m0.student ∧ m.confStudent = m0.confStudent) ∨
         (m.confStudent = 0.85 ∧ m0.confStudent < 0.85)) :
    ((transcriptSpeakerStep m sp).student = m0.student ∧
      (transcriptSpeakerStep m sp).confStudent = m0.confStudent) ∨
    ((transcriptSpeakerStep m sp).confStudent = 0.85 ∧ m0.confStudent < 0.85) := by
  simp only [transcriptSpeakerStep]
  split
  · split
    · split
      · exact h
      · exact h
    · exact h
  · split
    · split
      · exact h
      · split
        · rename_i hcond
          right
          refine ⟨rfl, ?_⟩
          rcases h with ⟨hc, hf⟩ | ⟨hf, hlt⟩
          · simp only [hc, ha, Bool.not_true, Bool.false_or, decide_eq_true_eq,
              hf] at hcond
            exact hcond
          · exact hlt
        · exact h
    · exact h

theorem foldl_transcript_coach_inv (sps : List Speaker) (m0 : Meta)
    (ha : optTruthy m0.coach = true) :
    ∀ m, ((m.coach = m0.coach ∧ m.confCoach = m0.confCoach) ∨
          (m.confCoach = 0.85 ∧ m0.confCoach < 0.85)) →
      ((sps.foldl transcriptSpeakerStep m).coach = m0.coach ∧
        (sps.foldl transcriptSpeakerStep m).confCoach = m0.confCoach) ∨
      ((sps.foldl transcriptSpeakerStep m).confCoach = 0.85 ∧
        m0.confCoach < 0.85) := by
  induction sps with
  | nil => exact fun m h => h
  | cons sp t ih =>
    intro m h
    simp only [List.foldl_cons]
    exact ih _ (transcriptSpeakerStep_coach_inv m0 m sp ha h)

theorem foldl_transcript_student_inv (sps : List Speaker) (m0 : Meta)
    (ha : optTruthy m0.student = true) :
    ∀ m, ((m.student = m0.student ∧ m.confStudent = m0.confStudent) ∨
          (m.confStudent = 0.85 ∧ m0.confStudent < 0.85)) →
      ((sps.foldl transcriptSpeakerStep m).student = m0.student ∧
        (sps.foldl transcriptSpeakerStep m).confStudent = m0.confStudent) ∨
      ((sps.foldl transcriptSpeakerStep m).confStudent = 0.85 ∧
        m0.confStudent < 0.85) := by
  induction sps with
  | nil => exact fun m h => h
  | cons sp t ih =>
    intro m h
    simp only [List.foldl_cons]
    exact ih _ (transcriptSpeakerStep_student_inv m0 m sp ha h)

theorem mergeTranscript_mono (ta : Option TranscriptAnalysis) :
    MonoStep (mergeTranscript ta) := by
  intro m
  cases ta with
  | none => exact ⟨coachMono_of_eq rfl rfl, studentMono_of_eq rfl rfl⟩
  | some td =>
    simp only [mergeTranscript]
    split
    · constructor
      · intro ha
        rcases foldl_transcript_coach_inv td.speakers m ha m (Or.inl ⟨rfl, rfl⟩) with
          ⟨hc, hf⟩ | ⟨hf, hlt⟩
        · exact ⟨le_of_eq hf.symm, fun hne => absurd hc hne⟩
        · exact ⟨le_of_lt (by rw [hf]; exact hlt), fun _ => by rw [hf]; exact hlt⟩
      · intro ha
        rcases foldl_transcript_student_inv td.speakers m ha m (Or.inl ⟨rfl, rfl⟩) with
          ⟨hc, hf⟩ | ⟨hf, hlt⟩
        · exact ⟨le_of_eq hf.symm, fun hne => absurd hc hne⟩
        · exact ⟨le_of_lt (by rw [hf]; exact hlt), fun _ => by rw [hf]; exact hlt⟩
    · exact ⟨coachMono_of_eq rfl rfl, studentMono_of_eq rfl rfl⟩


theorem capitalizeWord_ne_nil {w : Str} (hw : w ≠ []) : capitalizeWord w ≠ [] := by
  cases w with
  | nil => exact absurd rfl hw
  | cons c t => simp [capitalizeWord]

theorem knownCoach_ne_nil : ∀ cn ∈ knownCoachNames, cn ≠ [] := by decide

theorem chatParticipantStep_coach_inv (m0 m : Meta) (p : ChatParticipant)
    (ha : optTruthy m0.coach = true)
    (h : (m.coach = m0.coach ∧ m.confCoach = m0.confCoach) ∨
         (m.confCoach = 0.6 ∧ m0.confCoach < 0.6 ∧ optTruthy m.coach = true)) :
    ((chatParticipantStep m p).coach = m0.coach ∧
      (chatParticipantStep m p).confCoach = m0.confCoach) ∨
    ((chatParticipantStep m p).confCoach = 0.6 ∧ m0.confCoach < 0.6 ∧
      optTruthy (chatParticipantStep m p).coach = true) := by
  have htr : optTruthy m.coach = true := by
    rcases h with ⟨hc, _⟩ | ⟨_, _, ht⟩
    · rw [hc]; exact ha
    · exact ht
  simp only [chatParticipantStep]
  rcases hf : List.find? (fun cn => containsSub (lower p.name) cn) knownCoachNames with
    _ | cn
  · simp only [hf, htr, Bool.not_true, Bool.and_false, Bool.false_eq_true, if_false]
    rcases h with ⟨hc, hfq⟩ | ⟨h6, hlt, _⟩
    · exact Or.inl ⟨hc, hfq⟩
    · exact Or.inr ⟨h6, hlt, trivial⟩
  · simp only [hf]
    split
    · rename_i hcond
      have hcn : optTruthy (some (capitalizeWord cn)) = true := by
        simp only [optTruthy, decide_eq_true_eq]
        exact capitalizeWord_ne_nil (knownCoach_ne_nil cn (List.mem_of_find?_eq_some hf))
      simp only [hcn, Bool.not_true, Bool.and_false, Bool.false_eq_true, if_false]
      right
      refine ⟨by simp, ?_, by simp⟩
      rcases h with ⟨hc, hfq⟩ | ⟨_, hlt, _⟩
      · simp only [hc, ha, Bool.not_true, Bool.false_or, decide_eq_true_eq,
          hfq] at hcond
        exact hcond
      · exact hlt
    · simp only [htr, Bool.not_true, Bool.and_false, Bool.false_eq_true, if_false]
      rcases h with ⟨hc, hfq⟩ | ⟨h6, hlt, _⟩
      · exact Or.inl ⟨hc, hfq⟩
      · exact Or.inr ⟨h6, hlt, trivial⟩

theorem foldl_chat_coach_inv (ps : List ChatParticipant) (m0 : Meta)
    (ha : optTruthy m0.coach = true) :
    ∀ m, ((m.coach = m0.coach ∧ m.confCoach = m0.confCoach) ∨
          (m.confCoach = 0.6 ∧ m0.confCoach < 0.6 ∧ optTruthy m.coach = true)) →
      ((ps.foldl chatParticipantStep m).coach = m0.coach ∧
        (ps.foldl chatParticipantStep m).confCoach = m0.confCoach) ∨
      ((ps.foldl chatParticipantStep m).confCoach = 0.6 ∧ m0.confCoach < 0.6 ∧
        optTruthy (ps.foldl chatParticipantStep m).coach = true) := by
  induction ps with
  | nil => exact fun m h => h
  | cons p t ih =>
    intro m h
    simp only [List.foldl_cons]
    exact ih _ (chatParticipantStep_coach_inv m0 m p ha h)

theorem mergeChat_mono (ca : Option ChatAnalysis) : MonoStep (mergeChat ca) := by
  intro m
  cases ca with
  | none => exact ⟨coachMono_of_eq rfl rfl, studentMono_of_eq rfl rfl⟩
  | some cd =>
    simp only [mergeChat]
    split
    · constructor
      · intro ha
        rcases foldl_chat_coach_inv cd.participants m ha m (Or.inl ⟨rfl, rfl⟩) with
          ⟨hc, hf⟩ | ⟨hf, hlt, _⟩
        · exact ⟨le_of_eq hf.symm, fun hne => absurd hc hne⟩
        · exact ⟨le_of_lt (by rw [hf]; exact hlt), fun _ => by rw [hf]; exact hlt⟩
      · have h := foldl_chat_week cd.participants m
        exact studentMono_of_eq h.2.1 h.2.2.1
    · exact ⟨coachMono_of_eq rfl rfl, studentMono_of_eq rfl rfl⟩


end ZW.RP

/-- C1 (amended): each merge stage of the fusion cascade — basic timeline,
    transcript, chat, the two week stages, the enhanced-timeline merge on a
    non-Ivylevel result, the mappings fallback, and the Unknown-Coach/Student
    defaults — never decreases an accepted coach/student confidence and
    replaces an accepted value only on a strict confidence increase; the
    documented exceptions are the siraj short-circuit and the Ivylevel
    override, and additionally the company-name filter (which zeroes an
    accepted field, refuting the original claim). -/
theorem C1_theorem :
    (∀ tl, ZW.RP.MonoStep (ZW.RP.mergeTimelineBasic tl)) ∧
    (∀ ta, ZW.RP.MonoStep (ZW.RP.mergeTranscript ta)) ∧
    (∀ ca, ZW.RP.MonoStep (ZW.RP.mergeChat ca)) ∧
    (∀ rec, ZW.RP.MonoStep (ZW.RP.stageWeekEnhanced rec)) ∧
    (∀ rec mp, ZW.RP.MonoStep (ZW.RP.stageWeekCalc rec mp)) ∧
    (∀ tp, (∀ t, tp = some t → t.isIvylevel = false) →
      ZW.RP.MonoStep (ZW.RP.mergeTimelineEnhanced tp)) ∧
    (∀ rec mp s, ZW.RP.MonoStep (ZW.RP.mappingsFallback rec mp s)) ∧
    (∀ s : Bool, ZW.RP.MonoStep (fun m =>
      if !(ZW.optTruthy m.coach) && !s then
        { m with coach := some (ZW.str "Unknown Coach") }
      else m)) ∧
    (∀ s : Bool, ZW.RP.MonoStep (fun m =>
      if !(ZW.optTruthy m.student) && !s then
        { m with student := some (ZW.str "Unknown Student") }
      else m)) := by
  refine ⟨ZW.RP.mergeTimelineBasic_mono, ZW.RP.mergeTranscript_mono,
    ZW.RP.mergeChat_mono, ZW.RP.stageWeekEnhanced_mono, ZW.RP.stageWeekCalc_mono,
    ZW.RP.mergeTimelineEnhanced_mono, ZW.RP.mappingsFallback_mono, ?_, ?_⟩
  · intro s m
    constructor
    · intro ha
      simp only [ha, Bool.not_true, Bool.false_and, Bool.false_eq_true, if_false]
      exact ⟨le_refl _, fun hne => absurd rfl hne⟩
    · intro ha
      dsimp only
      split
      · exact ⟨le_refl _, fun hne => absurd rfl hne⟩
      · exact ⟨le_refl _, fun hne => absurd rfl hne⟩
  · intro s m
    constructor
    · intro ha
      dsimp only
      split
      · exact ⟨le_refl _, fun hne => absurd rfl hne⟩
      · exact ⟨le_refl _, fun hne => absurd rfl hne⟩
    · intro ha
      simp only [ha, Bool.not_true, Bool.false_and, Bool.false_eq_true, if_false]
      exact ⟨le_refl _, fun hne => absurd rfl hne⟩

/-- C1 counterexample: in a real non-siraj, non-Ivylevel run, the basic
    timeline accepts coach "Ivy Mentors Group" at confidence 0.8, and the
    company-name filter then drops that accepted coach's confidence to 0 — a
    decrease at a step that is neither of the two documented exceptions. -/
theorem C1_counterexample :
    ZW.RP.isSirajRecording ZW.RP.rec1.topic = false ∧
    (ZW.RP.parseTimelineForParticipantsEnhanced ZW.RP.doc1).isIvylevel = false ∧
    ZW.optTruthy (ZW.RP.extractMetadataFromAllSources ZW.RP.rec1
      (some (ZW.RP.parseTimelineForParticipants ZW.RP.doc1)) none none []).coach
      = true ∧
    (ZW.RP.extractMetadataFromAllSources ZW.RP.rec1
      (some (ZW.RP.parseTimelineForParticipants ZW.RP.doc1)) none none []).confCoach
      = 0.8 ∧
    (ZW.RP.companyNameFilter (ZW.RP.extractMetadataFromAllSources ZW.RP.rec1
      (some (ZW.RP.parseTimelineForParticipants ZW.RP.doc1)) none none [])).confCoach
      = 0 ∧
    ¬ ZW.RP.CoachMono
      (ZW.RP.extractMetadataFromAllSources ZW.RP.rec1
        (some (ZW.RP.parseTimelineForParticipants ZW.RP.doc1)) none none [])
      (ZW.RP.companyNameFilter (ZW.RP.extractMetadataFromAllSources ZW.RP.rec1
        (some (ZW.RP.parseTimelineForParticipants ZW.RP.doc1)) none none [])) := by
  have ht : ZW.optTruthy (ZW.RP.extractMetadataFromAllSources ZW.RP.rec1
      (some (ZW.RP.parseTimelineForParticipants ZW.RP.doc1)) none none []).coach
      = true := by with_unfolding_all rfl
  have hm : (ZW.RP.extractMetadataFromAllSources ZW.RP.rec1
      (some (ZW.RP.parseTimelineForParticipants ZW.RP.doc1)) none none []).confCoach
      = 0.8 := by with_unfolding_all rfl
  have hf : (ZW.RP.companyNameFilter (ZW.RP.extractMetadataFromAllSources ZW.RP.rec1
      (some (ZW.RP.parseTimelineForParticipants ZW.RP.doc1)) none none [])).confCoach
      = 0 := by with_unfolding_all rfl
  refine ⟨by decide, by with_unfolding_all rfl, ht, hm, hf, fun hmono => ?_⟩
  have hle := (hmono ht).1
  rw [hm, hf] at hle
  norm_num at hle

/-- Witness for C1: the timeline-basic stage applied to the concrete prior
    metadata with coach "Jenny" at confidence 0.95 and a timeline result of
    confidence 0.8, and the enhanced-timeline stage on a concrete
    non-Ivylevel result, both respect the accepted coach. -/
theorem C1_witness :
    ZW.RP.CoachMono ZW.RP.metaJenny
      (ZW.RP.mergeTimelineBasic
        (some ⟨some (ZW.str "Maya"), none, [], 0.8, 0⟩) ZW.RP.metaJenny) ∧
    ZW.RP.CoachMono ZW.RP.metaJenny
      (ZW.RP.mergeTimelineEnhanced
        (some ⟨some (ZW.str "Maya"), none, [], 0.8, 0, false⟩) ZW.RP.metaJenny) :=
  ⟨(C1_theorem.1 (some ⟨some (ZW.str "Maya"), none, [], 0.8, 0⟩)
      ZW.RP.metaJenny).1,
   (C1_theorem.2.2.2.2.2.1 (some ⟨some (ZW.str "Maya"), none, [], 0.8, 0, false⟩)
      (fun t ht => by cases ht; rfl) ZW.RP.metaJenny).1⟩

namespace ZW.RP

theorem upsert_forall {P : Str × PUser → Prop} (k : Str) (v : PUser)
    (acc : List (Str × PUser)) (h : ∀ kv ∈ acc, P kv) (hv : P (k, v)) :
    ∀ kv ∈ upsert k v acc, P kv := by
  induction acc with
  | nil =>
    intro kv hkv
    simp only [upsert, List.mem_singleton] at hkv
    exact hkv ▸ hv
  | cons p t ih =>
    intro kv hkv
    simp only [upsert] at hkv
    split at hkv
    · rcases List.mem_cons.mp hkv with h1 | h1
      · exact h1 ▸ hv
      · exact h kv (List.mem_cons_of_mem _ h1)
    · rcases List.mem_cons.mp hkv with h1 | h1
      · exact h1 ▸ h p (List.mem_cons_self _ _)
      · exact ih (fun kv hkv => h kv (List.mem_cons_of_mem _ hkv)) kv h1

theorem stepUserEnh_company (st : List (Str × PUser) × Bool × Bool) (u : TLUser)
    (h : ∀ kv ∈ st.1, isCompanyName kv.2.username = false) :
    ∀ kv ∈ (stepUserEnh st u).1, isCompanyName kv.2.username = false := by
  obtain ⟨acc, fl1, fl2⟩ := st
  simp only [stepUserEnh]
  cases hun : u.username with
  | none => exact h
  | some un =>
    by_cases hne : un = []
    · simp only [hne, if_true]
      exact h
    · simp only [hne, if_false]
      by_cases hskip : (allDigits un || decide (lower un = str "ivylevel") ||
          isCompanyName un) = true
      · simp only [hskip, if_true]
        exact h
      · rw [Bool.not_eq_true] at hskip
        simp only [hskip, Bool.false_eq_true, if_false]
        have hcn : isCompanyName un = false := by
          rcases Bool.or_eq_false_iff.mp hskip with ⟨_, h2⟩
          exact h2
        exact upsert_forall _ _ _ h hcn

theorem foldUsers_company (us : List TLUser) :
    ∀ st : List (Str × PUser) × Bool × Bool,
      (∀ kv ∈ st.1, isCompanyName kv.2.username = false) →
      ∀ kv ∈ (us.foldl stepUserEnh st).1, isCompanyName kv.2.username = false := by
  induction us with
  | nil => exact fun st h => h
  | cons u t ih =>
    intro st h
    simp only [List.foldl_cons]
    exact ih _ (stepUserEnh_company st u h)

theorem collectEnh_company (evs : List TLEvent) :
    ∀ kv ∈ (collectEnh evs).1, isCompanyName kv.2.username = false := by
  suffices hgen : ∀ l : List TLEvent, ∀ st : List (Str × PUser) × Bool × Bool,
      (∀ kv ∈ st.1, isCompanyName kv.2.username = false) →
      ∀ kv ∈ (l.foldl (fun st ev =>
        match ev.users with
        | some us => us.foldl stepUserEnh st
        | none => st) st).1, isCompanyName kv.2.username = false from
    hgen evs ([], true, false) (by intro kv hkv; simp at hkv)
  intro l
  induction l with
  | nil => exact fun st h => h
  | cons ev t ih =>
    intro st h
    simp only [List.foldl_cons]
    cases hus : ev.users with
    | none => exact ih st h
    | some us => exact ih _ (foldUsers_company us st h)

end ZW.RP

namespace ZW.RP

theorem parts_company (evs : List TLEvent) :
    ∀ u ∈ List.map Prod.snd (collectEnh evs).1, isCompanyName u.username = false := by
  intro u hu
  rcases List.mem_map.mp hu with ⟨kv, hkv, rfl⟩
  exact collectEnh_company evs kv hkv

theorem optTruthy_false_getD {o : Option Str} (h : optTruthy o = false) :
    o.getD [] = [] := by
  cases o with
  | none => rfl
  | some s =>
    simp only [optTruthy, decide_eq_false_iff_not, not_not] at h
    simp [h]

theorem parseEnh_ok (doc : TLDoc) :
    isCompanyName ((parseTimelineForParticipantsEnhanced doc).coach.getD []) = false ∧
    isCompanyName ((parseTimelineForParticipantsEnhanced doc).student.getD []) = false := by
  cases hdoc : doc.timeline with
  | none =>
    simp only [parseTimelineForParticipantsEnhanced, hdoc]
    exact ⟨rfl, rfl⟩
  | some evs =>
    have hparts : ∀ u ∈ List.map Prod.snd (collectEnh evs).1,
        isCompanyName u.username = false := parts_company evs
    have hstu : isCompanyName
        ((match List.filter (fun s => !isCompanyName s)
            (List.map (fun x : PUser => x.username)
              (List.filter (fun u : PUser => !u.isCoach)
                (List.map Prod.snd (collectEnh evs).1))) with
          | c :: _ => ((some c : Option Str), (0.9 : ℚ))
          | [] => (none, 0)).1.getD []) = false := by
      rcases hflt : List.filter (fun s => !isCompanyName s)
          (List.map (fun x : PUser => x.username)
            (List.filter (fun u : PUser => !u.isCoach)
              (List.map Prod.snd (collectEnh evs).1))) with _ | ⟨c, cs⟩
      · simp only [hflt]
        rfl
      · simp only [hflt, Option.getD_some]
        have hc := (List.mem_filter.mp (hflt ▸ List.mem_cons_self c cs)).2
        rwa [Bool.not_eq_true'] at hc
    simp only [parseTimelineForParticipantsEnhanced, hdoc]
    by_cases hiv : ((collectEnh evs).2.1 && !(collectEnh evs).2.2) = true
    · simp only [hiv, if_true]
      have hot : optTruthy (some (str "Ivylevel")) = true := by decide
      simp only [hot, Bool.not_true, Bool.false_and, Bool.false_eq_true, if_false]
      exact ⟨by decide, hstu⟩
    · rw [Bool.not_eq_true] at hiv
      simp only [hiv, Bool.false_eq_true, if_false]
      rcases hcs : List.map (fun x : PUser => x.username)
          (List.filter (fun x : PUser => x.isCoach)
            (List.map Prod.snd (collectEnh evs).1)) with _ | ⟨c, cs⟩
      all_goals simp only [hcs]
      · split
        · split
          · rename_i cu hf1
            split
            · rename_i su hf2
              have hp := List.find?_some hf2
              simp only [Bool.and_eq_true] at hp
              refine ⟨?_, ?_⟩
              · simp only [Option.getD_some]
                exact hparts cu (List.mem_of_find?_eq_some hf1)
              · simp only [Option.getD_some]
                rw [← Bool.not_eq_true']
                simp only [hp.2, Bool.not_false]
            · exact ⟨by
                simp only [Option.getD_some]
                exact hparts cu (List.mem_of_find?_eq_some hf1), hstu⟩
          · exact ⟨rfl, hstu⟩
        · exact ⟨rfl, hstu⟩
      · have hcm : c ∈ List.map (fun x : PUser => x.username)
            (List.filter (fun x : PUser => x.isCoach)
              (List.map Prod.snd (collectEnh evs).1)) :=
          hcs ▸ List.mem_cons_self c cs
        rcases List.mem_map.mp hcm with ⟨u, hu, rfl⟩
        have hcok : isCompanyName u.username = false :=
          hparts u (List.mem_of_mem_filter hu)
        split
        · split
          · rename_i cu hf1
            split
            · rename_i su hf2
              have hp := List.find?_some hf2
              simp only [Bool.and_eq_true] at hp
              refine ⟨?_, ?_⟩
              · simp only [Option.getD_some]
                exact hparts cu (List.mem_of_find?_eq_some hf1)
              · simp only [Option.getD_some]
                rw [← Bool.not_eq_true']
                simp only [hp.2, Bool.not_false]
            · exact ⟨by
                simp only [Option.getD_some]
                exact hparts cu (List.mem_of_find?_eq_some hf1), hstu⟩
          · exact ⟨by simpa using hcok, hstu⟩
        · exact ⟨by simpa using hcok, hstu⟩

end ZW.RP

namespace ZW.RP

theorem companyNameFilter_ok (m : Meta) :
    isCompanyName ((companyNameFilter m).coach.getD []) = false ∧
    isCompanyName ((companyNameFilter m).student.getD []) = false := by
  simp only [companyNameFilter]
  constructor
  · split
    · split
      · rfl
      · rfl
    · rename_i hcond
      simp only [Bool.and_eq_true, not_and, Bool.not_eq_true] at hcond
      by_cases htr : optTruthy m.coach = true
      · have := hcond htr
        split
        · exact this
        · exact this
      · rw [Bool.not_eq_true] at htr
        have := optTruthy_false_getD htr
        split
        · rw [this]; rfl
        · rw [this]; rfl
  · split
    · split
      · rfl
      · rename_i hcond
        simp only [Bool.and_eq_true, not_and, Bool.not_eq_true] at hcond
        by_cases htr : optTruthy m.student = true
        · exact hcond htr
        · rw [Bool.not_eq_true] at htr
          rw [optTruthy_false_getD htr]
          rfl
    · split
      · rfl
      · rename_i hcond
        simp only [Bool.and_eq_true, not_and, Bool.not_eq_true] at hcond
        by_cases htr : optTruthy m.student = true
        · exact hcond htr
        · rw [Bool.not_eq_true] at htr
          rw [optTruthy_false_getD htr]
          rfl

theorem mergeTimelineEnhanced_ok (tp : Option EnhResult) (m : Meta)
    (htp : ∀ t, tp = some t → isCompanyName (t.coach.getD []) = false ∧
      isCompanyName (t.student.getD []) = false)
    (hm : isCompanyName (m.coach.getD []) = false ∧
      isCompanyName (m.student.getD []) = false) :
    isCompanyName ((mergeTimelineEnhanced tp m).coach.getD []) = false ∧
    isCompanyName ((mergeTimelineEnhanced tp m).student.getD []) = false := by
  cases tp with
  | none => exact hm
  | some t =>
    have ht := htp t rfl
    simp only [mergeTimelineEnhanced]
    split
    · refine ⟨?_, hm.2⟩
      show isCompanyName (str "Ivylevel") = false
      decide
    · constructor
      · split
        · split
          · exact ht.1
          · exact ht.1
        · split
          · exact hm.1
          · exact hm.1
      · split
        · split
          · exact ht.2
          · exact hm.2
        · split
          · exact ht.2
          · exact hm.2

theorem mappingsFallback_src (rec : Recording) (mp : Mappings) (s : Bool) (m : Meta) :
    (((mappingsFallback rec mp s m).coach = m.coach ∧
      (mappingsFallback rec mp s m).srcCoach = m.srcCoach) ∨
     (mappingsFallback rec mp s m).srcCoach = some (str "mappings")) ∧
    (((mappingsFallback rec mp s m).student = m.student ∧
      (mappingsFallback rec mp s m).srcStudent = m.srcStudent) ∨
     (mappingsFallback rec mp s m).srcStudent = some (str "mappings")) := by
  simp only [mappingsFallback]
  split
  · split
    · split
      · constructor
        · split
          · split
            · exact Or.inr rfl
            · exact Or.inr rfl
          · split
            · exact Or.inl ⟨rfl, rfl⟩
            · exact Or.inl ⟨rfl, rfl⟩
        · split
          · split
            · exact Or.inr rfl
            · exact Or.inr rfl
          · split
            · exact Or.inr rfl
            · exact Or.inr rfl
      · exact ⟨Or.inl ⟨rfl, rfl⟩, Or.inl ⟨rfl, rfl⟩⟩
    · exact ⟨Or.inl ⟨rfl, rfl⟩, Or.inl ⟨rfl, rfl⟩⟩
  · exact ⟨Or.inl ⟨rfl, rfl⟩, Or.inl ⟨rfl, rfl⟩⟩

end ZW.RP

/-- C4 (amended): in the finalized record, a company-indicator name can appear
    as coach or student only via the directory-mappings fallback: whenever the
    final coach (resp. student) source is not "mappings", the final coach
    (resp. student) value is not an organizational name. -/
theorem C4_theorem (rec : ZW.RP.Recording) (tj : Option ZW.RP.TLDoc)
    (ta : Option ZW.RP.TranscriptAnalysis) (ca : Option ZW.RP.ChatAnalysis)
    (mp : ZW.RP.Mappings) :
    ((ZW.RP.processWebhookMetadata rec tj ta ca mp).meta.srcCoach
        ≠ some (ZW.str "mappings") →
      ZW.RP.isCompanyName
        ((ZW.RP.processWebhookMetadata rec tj ta ca mp).meta.coach.getD []) = false) ∧
    ((ZW.RP.processWebhookMetadata rec tj ta ca mp).meta.srcStudent
        ≠ some (ZW.str "mappings") →
      ZW.RP.isCompanyName
        ((ZW.RP.processWebhookMetadata rec tj ta ca mp).meta.student.getD [])
        = false) := by
  by_cases hs : ZW.RP.isSirajRecording rec.topic = true
  · simp only [ZW.RP.processWebhookMetadata, hs, if_true, ZW.RP.mappingsFallback,
      Bool.not_true, Bool.and_false, Bool.false_eq_true, if_false]
    constructor
    · intro _
      show ZW.RP.isCompanyName (ZW.str "Siraj") = false
      decide
    · intro _
      rfl
  · rw [Bool.not_eq_true] at hs
    have htp : ∀ t, tj.map ZW.RP.parseTimelineForParticipantsEnhanced = some t →
        ZW.RP.isCompanyName (t.coach.getD []) = false ∧
        ZW.RP.isCompanyName (t.student.getD []) = false := by
      intro t ht
      cases tj with
      | none => simp at ht
      | some d =>
        rw [Option.map_some'] at ht
        cases ht
        exact ZW.RP.parseEnh_ok d
    have h7 := ZW.RP.mergeTimelineEnhanced_ok
      (tj.map ZW.RP.parseTimelineForParticipantsEnhanced)
      (ZW.RP.companyNameFilter (ZW.RP.extractMetadataFromAllSources rec
        (tj.map ZW.RP.parseTimelineForParticipants) ta ca mp))
      htp
      (ZW.RP.companyNameFilter_ok (ZW.RP.extractMetadataFromAllSources rec
        (tj.map ZW.RP.parseTimelineForParticipants) ta ca mp))
    rcases ZW.RP.mappingsFallback_src rec mp (ZW.RP.isSirajRecording rec.topic)
      (ZW.RP.mergeTimelineEnhanced
        (tj.map ZW.RP.parseTimelineForParticipantsEnhanced)
        (ZW.RP.companyNameFilter (ZW.RP.extractMetadataFromAllSources rec
          (tj.map ZW.RP.parseTimelineForParticipants) ta ca mp))) with ⟨h8c, h8s⟩
    simp only [ZW.RP.processWebhookMetadata, hs, Bool.false_eq_true, if_false]
    constructor
    · split
      all_goals split
      all_goals split
      all_goals intro hne
      all_goals try
        (show ZW.RP.isCompanyName
          ((some (ZW.str "Unknown Coach") : Option ZW.Str).getD []) = false
         decide)
      all_goals
        rcases h8c with ⟨hc8, _⟩ | hsrc8
      all_goals try (rw [hs] at hc8; rw [hc8]; exact h7.1)
      all_goals rw [hs] at hsrc8; exact absurd hsrc8 hne
    · split
      all_goals split
      all_goals split
      all_goals intro hne
      all_goals try
        (show ZW.RP.isCompanyName
          ((some (ZW.str "Unknown Student") : Option ZW.Str).getD []) = false
         decide)
      all_goals
        rcases h8s with ⟨hc8, _⟩ | hsrc8
      all_goals try (rw [hs] at hc8; rw [hc8]; exact h7.2)
      all_goals rw [hs] at hsrc8; exact absurd hsrc8 hne

/-- C4 counterexample: with no other evidence, the mappings fallback installs
    the sheet's company-indicator names ("Acme Consulting",
    "Consulting Partners LLC") as the finalized student and coach — the
    company gate does not hold on the mappings path. -/
theorem C4_counterexample :
    (ZW.RP.processWebhookMetadata ZW.RP.rec1 none none none ZW.RP.mpAcme).meta.student
      = some (ZW.str "Acme Consulting") ∧
    (ZW.RP.processWebhookMetadata ZW.RP.rec1 none none none ZW.RP.mpAcme).meta.coach
      = some (ZW.str "Consulting Partners LLC") ∧
    ZW.RP.isCompanyName
      ((ZW.RP.processWebhookMetadata ZW.RP.rec1 none none none
        ZW.RP.mpAcme).meta.student.getD []) = true ∧
    ZW.RP.isCompanyName
      ((ZW.RP.processWebhookMetadata ZW.RP.rec1 none none none
        ZW.RP.mpAcme).meta.coach.getD []) = true ∧
    (ZW.RP.processWebhookMetadata ZW.RP.rec1 none none none ZW.RP.mpAcme).meta.srcStudent
      = some (ZW.str "mappings") ∧
    (ZW.RP.processWebhookMetadata ZW.RP.rec1 none none none ZW.RP.mpAcme).meta.srcCoach
      = some (ZW.str "mappings") := by
  refine ⟨?_, ?_, ?_, ?_, ?_, ?_⟩
  · with_unfolding_all rfl
  · with_unfolding_all rfl
  · with_unfolding_all rfl
  · with_unfolding_all rfl
  · with_unfolding_all rfl
  · with_unfolding_all rfl

/-- Witness for C4 at a concrete run with no mappings: the final sources are
    not "mappings" and the final coach/student are not company names. -/
theorem C4_witness :
    (ZW.RP.processWebhookMetadata ZW.RP.rec1 none none none []).meta.srcCoach
      ≠ some (ZW.str "mappings") ∧
    ZW.RP.isCompanyName
      ((ZW.RP.processWebhookMetadata ZW.RP.rec1 none none none
        []).meta.coach.getD []) = false ∧
    (ZW.RP.processWebhookMetadata ZW.RP.rec1 none none none []).meta.srcStudent
      ≠ some (ZW.str "mappings") ∧
    ZW.RP.isCompanyName
      ((ZW.RP.processWebhookMetadata ZW.RP.rec1 none none none
        []).meta.student.getD []) = false := by
  have hc : (ZW.RP.processWebhookMetadata ZW.RP.rec1 none none none []).meta.srcCoach
      = none := by with_unfolding_all rfl
  have hst : (ZW.RP.processWebhookMetadata ZW.RP.rec1 none none none []).meta.srcStudent
      = none := by with_unfolding_all rfl
  have hnc : (ZW.RP.processWebhookMetadata ZW.RP.rec1 none none none []).meta.srcCoach
      ≠ some (ZW.str "mappings") := by
    rw [hc]; exact fun h => Option.noConfusion h
  have hns : (ZW.RP.processWebhookMetadata ZW.RP.rec1 none none none []).meta.srcStudent
      ≠ some (ZW.str "mappings") := by
    rw [hst]; exact fun h => Option.noConfusion h
  exact ⟨hnc, (C4_theorem ZW.RP.rec1 none none none []).1 hnc,
    hns, (C4_theorem ZW.RP.rec1 none none none []).2 hns⟩

namespace ZW.RP

theorem calculateWeekNumber_clamp (mp : Mappings) (email : Str) (date : Int)
    (info : StudentInfo) (start : Int) (he : mapGet mp email = some info)
    (hsd : info.startDate = some start) :
    calculateWeekNumber mp email date
      = max 1 (min (ceilDiv (ceilDiv (date - start) 86400000) 7) 52) ∧
    1 ≤ calculateWeekNumber mp email date ∧
    calculateWeekNumber mp email date ≤ 52 := by
  simp only [calculateWeekNumber, he, hsd]
  exact ⟨trivial, le_max_left _ _, max_le (by norm_num) (min_le_right _ _)⟩

theorem calculateWeekNumber_noEntry (mp : Mappings) (email : Str) (date : Int)
    (he : mapGet mp email = none) : calculateWeekNumber mp email date = 1 := by
  simp [calculateWeekNumber, he]

theorem stageWeekCalc_set (rec : Recording) (mp : Mappings) (m : Meta) (e : Str)
    (hw : optTruthy m.weekNumber = false) (hid : identifyStudent mp rec = some e) :
    (stageWeekCalc rec mp m).weekNumber
      = some (intStr (calculateWeekNumber mp e rec.start_time)) ∧
    (stageWeekCalc rec mp m).confWeek = 0.6 ∧
    (stageWeekCalc rec mp m).srcWeek = some (str "calculated") := by
  simp [stageWeekCalc, hw, hid]

theorem stageWeekCalc_skip (rec : Recording) (mp : Mappings) (m : Meta)
    (hid : identifyStudent mp rec = none) : stageWeekCalc rec mp m = m := by
  simp only [stageWeekCalc, hid]
  split
  · rfl
  · rfl

theorem mappingsFallbackWeek_set (rec : Recording) (mp : Mappings) (m : Meta)
    (e : Str) (info : StudentInfo) (hstu : optTruthy m.student = false)
    (hid : identifyStudent mp rec = some e) (hmg : mapGet mp e = some info)
    (hw : optTruthy m.weekNumber = false) :
    (mappingsFallback rec mp false m).weekNumber
      = some (intStr (calculateWeekNumber mp e rec.start_time)) ∧
    (mappingsFallback rec mp false m).confWeek = 0.7 ∧
    (mappingsFallback rec mp false m).srcWeek = some (str "calculated") := by
  simp only [mappingsFallback, hstu, hid, hmg, Bool.not_false, Bool.and_self,
    if_true]
  split
  · simp [hw]
  · simp [hw]

theorem mappingsFallbackWeek_skip (rec : Recording) (mp : Mappings) (m : Meta)
    (hid : identifyStudent mp rec = none) : mappingsFallback rec mp false m = m := by
  simp only [mappingsFallback, hid]
  split
  · rfl
  · rfl

end ZW.RP

namespace ZW.RP

theorem finalWeekDefault (rec : Recording) (mp : Mappings)
    (hs : isSirajRecording rec.topic = false)
    (hwk : extractWeekNumber rec.topic = none)
    (htxt : firstPatternCapture enhancedWeekPatterns
      (List.intercalate [' '] [rec.topic, rec.host_id.getD []]) = none)
    (hid : identifyStudent mp rec = none)
    (hmg : mapGet mp (str "unknown@email.com") = none) :
    (extractMetadataFromAllSources rec none none none mp).weekNumber = none ∧
    (processWebhookMetadata rec none none none mp).meta.weekNumber
      = some (str "1") ∧
    (processWebhookMetadata rec none none none mp).meta.confWeek = 0.6 ∧
    (processWebhookMetadata rec none none none mp).meta.srcWeek
      = some (str "calculated_fallback") := by
  have h0 : (stageTopic rec).weekNumber = none ∧ (stageTopic rec).participants = [] := by
    simp [stageTopic, hwk, optTruthy, emptyMeta]
  have hse : stageWeekEnhanced rec (stageTopic rec) = stageTopic rec := by
    simp only [stageWeekEnhanced, h0.1]
    simp only [optTruthy, Bool.not_false, Bool.true_or, if_true]
    simp only [h0.2, List.map_nil, List.append_nil, List.singleton_append]
    rw [htxt]
  have hextract : extractMetadataFromAllSources rec none none none mp
      = stageTopic rec := by
    show stageWeekCalc rec mp (stageWeekEnhanced rec
      (mergeChat none (mergeTranscript none
        (mergeTimelineBasic none (stageTopic rec))))) = stageTopic rec
    rw [show mergeTimelineBasic none (stageTopic rec) = stageTopic rec from rfl,
        show mergeTranscript none (stageTopic rec) = stageTopic rec from rfl,
        show mergeChat none (stageTopic rec) = stageTopic rec from rfl, hse]
    exact stageWeekCalc_skip rec mp _ hid
  refine ⟨hextract ▸ h0.1, ?_⟩
  have hw8 : (companyNameFilter (stageTopic rec)).weekNumber = none :=
    (companyNameFilter_week _).1.trans h0.1
  have hone : intStr 1 = str "1" := by decide
  simp only [processWebhookMetadata, hs, Bool.false_eq_true, if_false,
    Option.map_none', hextract, mergeTimelineEnhanced]
  rw [mappingsFallbackWeek_skip rec mp _ hid]
  split
  all_goals split
  all_goals simp only [hw8, optTruthy, Bool.not_false, Bool.and_true, if_true,
    Bool.not_true, hid, Option.getD_none, calculateWeekNumber_noEntry mp _
      rec.start_time hmg, hone]
  all_goals exact ⟨trivial, trivial, trivial⟩

end ZW.RP

/-- C8: `calculateWeekNumber` equals the spec's clamp formula
    clamp(ceil(days(startDate, recordingDate) / 7), 1, 52) whenever a
    directory entry with a start date exists (hence always lies in [1, 52]),
    and returns 1 when no entry exists; with the week still unset, the
    extract-stage fallback stores it at confidence 0.6 source "calculated",
    the mappings fallback at confidence 0.7 source "calculated", and with no
    directory entry the week is left unset by those stages and becomes "1"
    (confidence 0.6, source "calculated_fallback") only at final
    record-assembly time. -/
theorem C8_theorem :
    (∀ mp email date info start, ZW.RP.mapGet mp email = some info →
      info.startDate = some start →
      ZW.RP.calculateWeekNumber mp email date = ZW.RP.specClampWeek date start ∧
      1 ≤ ZW.RP.calculateWeekNumber mp email date ∧
      ZW.RP.calculateWeekNumber mp email date ≤ 52) ∧
    (∀ mp email date, ZW.RP.mapGet mp email = none →
      ZW.RP.calculateWeekNumber mp email date = 1) ∧
    (∀ rec mp (m : ZW.RP.Meta) e, ZW.optTruthy m.weekNumber = false →
      ZW.RP.identifyStudent mp rec = some e →
      (ZW.RP.stageWeekCalc rec mp m).weekNumber
        = some (ZW.RP.intStr (ZW.RP.calculateWeekNumber mp e rec.start_time)) ∧
      (ZW.RP.stageWeekCalc rec mp m).confWeek = 0.6 ∧
      (ZW.RP.stageWeekCalc rec mp m).srcWeek = some (ZW.str "calculated")) ∧
    (∀ rec mp (m : ZW.RP.Meta), ZW.RP.identifyStudent mp rec = none →
      ZW.RP.stageWeekCalc rec mp m = m) ∧
    (∀ rec mp (m : ZW.RP.Meta) e info, ZW.optTruthy m.student = false →
      ZW.RP.identifyStudent mp rec = some e → ZW.RP.mapGet mp e = some info →
      ZW.optTruthy m.weekNumber = false →
      (ZW.RP.mappingsFallback rec mp false m).weekNumber
        = some (ZW.RP.intStr (ZW.RP.calculateWeekNumber mp e rec.start_time)) ∧
      (ZW.RP.mappingsFallback rec mp false m).confWeek = 0.7 ∧
      (ZW.RP.mappingsFallback rec mp false m).srcWeek
        = some (ZW.str "calculated")) ∧
    (∀ rec mp (m : ZW.RP.Meta), ZW.RP.identifyStudent mp rec = none →
      ZW.RP.mappingsFallback rec mp false m = m) ∧
    (∀ rec mp, ZW.RP.isSirajRecording rec.topic = false →
      ZW.RP.extractWeekNumber rec.topic = none →
      ZW.firstPatternCapture ZW.RP.enhancedWeekPatterns
        (List.intercalate [' '] [rec.topic, rec.host_id.getD []]) = none →
      ZW.RP.identifyStudent mp rec = none →
      ZW.RP.mapGet mp (ZW.str "unknown@email.com") = none →
      (ZW.RP.extractMetadataFromAllSources rec none none none mp).weekNumber
        = none ∧
      (ZW.RP.processWebhookMetadata rec none none none mp).meta.weekNumber
        = some (ZW.str "1") ∧
      (ZW.RP.processWebhookMetadata rec none none none mp).meta.confWeek = 0.6 ∧
      (ZW.RP.processWebhookMetadata rec none none none mp).meta.srcWeek
        = some (ZW.str "calculated_fallback")) :=
  ⟨fun mp email date info start he hsd =>
    ZW.RP.calculateWeekNumber_clamp mp email date info start he hsd,
   fun mp email date he => ZW.RP.calculateWeekNumber_noEntry mp email date he,
   fun rec mp m e hw hid => ZW.RP.stageWeekCalc_set rec mp m e hw hid,
   fun rec mp m hid => ZW.RP.stageWeekCalc_skip rec mp m hid,
   fun rec mp m e info hstu hid hmg hw =>
    ZW.RP.mappingsFallbackWeek_set rec mp m e info hstu hid hmg hw,
   fun rec mp m hid => ZW.RP.mappingsFallbackWeek_skip rec mp m hid,
   fun rec mp hs hwk htxt hid hmg =>
    ZW.RP.finalWeekDefault rec mp hs hwk htxt hid hmg⟩

/-- Witness for C8: the clamp bounds at a concrete mappings entry (start date
    epoch 0, recording 8 days later), and a concrete no-entry run whose final
    week is "1" with source calculated_fallback. -/
theorem C8_witness :
    ZW.RP.mapGet ZW.RP.mpAcme (ZW.str "xmq@x.com")
      = some ⟨ZW.str "Acme Consulting", ZW.str "Consulting Partners LLC",
          ZW.str "", ZW.str "P", some 0⟩ ∧
    (1 ≤ ZW.RP.calculateWeekNumber ZW.RP.mpAcme (ZW.str "xmq@x.com") 691200000 ∧
     ZW.RP.calculateWeekNumber ZW.RP.mpAcme (ZW.str "xmq@x.com") 691200000 ≤ 52) ∧
    ((ZW.RP.processWebhookMetadata ZW.RP.rec1 none none none []).meta.weekNumber
        = some (ZW.str "1") ∧
     (ZW.RP.processWebhookMetadata ZW.RP.rec1 none none none []).meta.srcWeek
        = some (ZW.str "calculated_fallback")) :=
  ⟨by decide,
   ⟨(C8_theorem.1 ZW.RP.mpAcme (ZW.str "xmq@x.com") 691200000
      ⟨ZW.str "Acme Consulting", ZW.str "Consulting Partners LLC",
        ZW.str "", ZW.str "P", some 0⟩ 0 (by decide) rfl).2.1,
    (C8_theorem.1 ZW.RP.mpAcme (ZW.str "xmq@x.com") 691200000
      ⟨ZW.str "Acme Consulting", ZW.str "Consulting Partners LLC",
        ZW.str "", ZW.str "P", some 0⟩ 0 (by decide) rfl).2.2⟩,
   ⟨(C8_theorem.2.2.2.2.2.2 ZW.RP.rec1 [] (by decide) (by decide) (by decide)
      rfl rfl).2.1,
    (C8_theorem.2.2.2.2.2.2 ZW.RP.rec1 [] (by decide) (by decide) (by decide)
      rfl rfl).2.2.2⟩⟩
